/-
Verification of the confusion-model / drill-sampling / lesson-sequencing
core of the language_app repository, as a shallow embedding in Lean 4.

Python floats are modelled as exact rationals (ℚ); Python lists as Lean
lists; dictionaries keyed by strings as association lists preserving
insertion order.  Dash-joined sequence keys of the word index are modelled
directly as the underlying class sequences (`List ℕ`), since joining with
"-" and splitting back are mutually inverse on these keys.
Ambient randomness (`random.random`, `random.choice`, `random.shuffle`,
`random.randint`) is modelled by an explicit stream of rational draws that
every theorem quantifies over.
-/
import Mathlib

/-! ## Basic data model (src/backend/app/ml/types.py) -/

/-- Parameters of a Beta distribution (`BetaParams` in types.py). -/
structure BetaParams where
  alpha : ℚ
  beta : ℚ
deriving Repr, DecidableEq

/-- Mean of the Beta distribution, `alpha / (alpha + beta)`. -/
def BetaParams.mean (b : BetaParams) : ℚ := b.alpha / (b.alpha + b.beta)

/-- A drill problem (`Problem` in types.py).  Class ids are 1-indexed. -/
structure Problem where
  problem_type_id : String
  word_id : ℤ
  vietnamese : String
  correct_index : ℕ
  correct_sequence : List ℕ
  alternatives : List (List ℕ)
deriving Repr, DecidableEq

/-- `Problem.n_choices` property: `len(alternatives) + 1`. -/
def Problem.n_choices (p : Problem) : ℕ := p.alternatives.length + 1

/-- `Problem.all_choices` property: correct first, then the alternatives. -/
def Problem.all_choices (p : Problem) : List (List ℕ) :=
  p.correct_sequence :: p.alternatives

/-- A user's answer (`Answer` in types.py). -/
structure Answer where
  selected_sequence : List ℕ
  elapsed_ms : ℕ
deriving Repr, DecidableEq

/-- `Answer.is_correct` from types.py. -/
def Answer.is_correct (a : Answer) (p : Problem) : Bool :=
  a.selected_sequence = p.correct_sequence

/-- A logged state change (`StateUpdate` in types.py). -/
structure StateUpdate where
  tracker_id : String
  old_value : ℚ
  new_value : ℚ
deriving Repr, DecidableEq

/-! ## Matrices as nested lists (the source stores `list[list[float]]`) -/

/-- Read cell `m[i][j]` of a nested-list matrix (0-indexed), 0 if absent. -/
def matGet (m : List (List ℚ)) (i j : ℕ) : ℚ := (m.getD i []).getD j 0

/-- `m[i][j] += 1` on a copied nested list
(`copy_with_increment` body in types.py / luce_service.py). -/
def matInc (m : List (List ℚ)) (i j : ℕ) : List (List ℚ) :=
  m.set i ((m.getD i []).set j (matGet m i j + 1))

/-- The matrix is square with side `n`. -/
def matShape (m : List (List ℚ)) (n : ℕ) : Prop :=
  m.length = n ∧ ∀ row ∈ m, row.length = n

/-- All entries of the matrix are non-negative. -/
def matNonneg (m : List (List ℚ)) : Prop :=
  ∀ row ∈ m, ∀ x ∈ row, 0 ≤ x

instance (m : List (List ℚ)) (n : ℕ) : Decidable (matShape m n) := by
  unfold matShape; infer_instance

instance (m : List (List ℚ)) : Decidable (matNonneg m) := by
  unfold matNonneg; infer_instance

/-! ## Problem-type registry (src/backend/app/ml/registry.py) -/

/-- `ProblemTypeConfig` from registry.py. -/
structure ProblemTypeConfig where
  problem_type_id : String
  drill_type : String
  syllable_count : ℕ
  n_classes : ℕ
  pseudocount : ℚ
deriving Repr, DecidableEq

/-- `make_problem_type_id` from registry.py. -/
def make_problem_type_id (drill_type : String) (syllable_count : ℕ) : String :=
  drill_type ++ "_" ++ toString syllable_count

/-- The statically registered problem types (`PROBLEM_TYPES` in registry.py). -/
def PROBLEM_TYPES : List (String × ProblemTypeConfig) :=
  [("tone_1", ⟨"tone_1", "tone", 1, 6, 2⟩),
   ("tone_2", ⟨"tone_2", "tone", 2, 6, 2⟩),
   ("vowel_1", ⟨"vowel_1", "vowel", 1, 12, 5⟩),
   ("vowel_2", ⟨"vowel_2", "vowel", 2, 12, 5⟩)]

/-- `get_problem_type` from registry.py: registry lookup, else auto-register
from the `<drill_type>_<int>` pattern; `none` models the KeyError. -/
def get_problem_type (ptid : String) : Option ProblemTypeConfig :=
  match (PROBLEM_TYPES.find? (fun e => e.1 = ptid)) with
  | some e => some e.2
  | none =>
    match ptid.splitOn "_" with
    | [d, s] =>
      if (d = "tone" ∨ d = "vowel") ∧ s.isNat then
        some ⟨ptid, d, s.toNat?.getD 0,
              if d = "tone" then 6 else 12,
              if d = "tone" then 2 else 5⟩
      else none
    | _ => none

/-- The class cardinality of a problem type (6 for tone, 12 for vowel);
0 for an unknown id (the source raises `UnknownProblemType` there). -/
def n_classes_of (ptid : String) : ℕ :=
  ((get_problem_type ptid).map (·.n_classes)).getD 0

/-! ## Luce model with pseudocounts (src/backend/app/ml/luce_service.py) -/

/-- `LuceState`: observation counts plus Laplace prior per cell. -/
structure LuceState where
  n_classes : ℕ
  counts : List (List ℚ)
  prior : ℚ
deriving Repr, DecidableEq

/-- `LuceState.copy_with_increment`: new state with `counts[p-1][s-1] += 1`. -/
def LuceState.copy_with_increment (st : LuceState) (played selected : ℕ) : LuceState :=
  ⟨st.n_classes, matInc st.counts (played - 1) (selected - 1), st.prior⟩

/-- `LuceMLService.get_initial_state`: all counts zero. -/
def luce_get_initial_state (prior : ℚ) (ptid : String) : LuceState :=
  let n := n_classes_of ptid
  ⟨n, List.replicate n (List.replicate n 0), prior⟩

/-- `LuceMLService.get_success_distribution`: Luce choice probability from
count-based strengths, with `effective_n` from the observation row. -/
def luce_get_success_distribution (p : Problem) (st : LuceState) : BetaParams :=
  let prior := st.prior
  let correct_class := p.correct_sequence.getD 0 0
  let alt_classes := p.alternatives.map (fun a => a.getD 0 0)
  let all_classes := correct_class :: alt_classes
  let strengths := all_classes.map (fun c => matGet st.counts (correct_class - 1) (c - 1) + prior)
  let total_strength := strengths.sum
  let p_correct := strengths.getD 0 0 / total_strength
  let n_obs := (st.counts.getD (correct_class - 1) []).sum
  let prior_n := (all_classes.length : ℚ) * prior
  let effective_n := prior_n + n_obs
  ⟨p_correct * effective_n, (1 - p_correct) * effective_n⟩

/-- `LuceMLService.update_state`: increment the count for
`(correct first syllable, selected first syllable)`. -/
def luce_update_state (st : LuceState) (p : Problem) (a : Answer) :
    LuceState × List StateUpdate :=
  let correct_class := p.correct_sequence.getD 0 0
  let selected_class := a.selected_sequence.getD 0 0
  let old_value := matGet st.counts (correct_class - 1) (selected_class - 1)
  let upd : StateUpdate := ⟨"counts", old_value, old_value + 1⟩
  (st.copy_with_increment correct_class selected_class, [upd])

/-- `beta_mixture_approx` from beta_utils.py: moment-matched Beta fit of a
two-component Beta mixture, with Beta(1,1) fallback when `nu ≤ 0`. -/
def beta_mixture_approx (alpha1 beta1 alpha2 beta2 w1 : ℚ) : ℚ × ℚ :=
  let w2 := 1 - w1
  let mu1 := alpha1 / (alpha1 + beta1)
  let mu2 := alpha2 / (alpha2 + beta2)
  let n1 := alpha1 + beta1
  let n2 := alpha2 + beta2
  let var1 := (alpha1 * beta1) / (n1 ^ 2 * (n1 + 1))
  let var2 := (alpha2 * beta2) / (n2 ^ 2 * (n2 + 1))
  let mu_mix := w1 * mu1 + w2 * mu2
  let var_mix := w1 * var1 + w2 * var2 + w1 * w2 * (mu1 - mu2) ^ 2
  let nu := mu_mix * (1 - mu_mix) / var_mix - 1
  if nu ≤ 0 then (1, 1) else (mu_mix * nu, (1 - mu_mix) * nu)

/-- The 1-indexed unordered pairs `(i, j)` with `i < j ≤ n`, in the order
`for i in range(n): for j in range(i+1, n)` used by every variant. -/
def pairList (n : ℕ) : List (ℕ × ℕ) :=
  (List.range n).flatMap (fun i =>
    ((List.range n).filter (fun j => i < j)).map (fun j => (i + 1, j + 1)))

/-- The synthetic two-choice problem used in `get_all_pair_stats`
(class `c` correct, class `alt` the only alternative). -/
def synth2Problem (ptid : String) (c alt : ℕ) : Problem :=
  ⟨ptid, 0, "", 0, [c], [[alt]]⟩

/-- `LuceMLService.get_all_pair_stats`: per unordered pair, the moment-matched
mixture of the two directed synthetic two-choice success Betas.
No floor is applied to the mixture result. -/
def luce_get_all_pair_stats (ptid : String) (st : LuceState) :
    List ((ℕ × ℕ) × BetaParams) :=
  let n := n_classes_of ptid
  (pairList n).map (fun ij =>
    let beta_i := luce_get_success_distribution (synth2Problem ptid ij.1 ij.2) st
    let beta_j := luce_get_success_distribution (synth2Problem ptid ij.2 ij.1) st
    let mix := beta_mixture_approx beta_i.alpha beta_i.beta beta_j.alpha beta_j.beta (1/2)
    (ij, BetaParams.mk mix.1 mix.2))

/-! ## Dirichlet-Categorical confusion model (src/backend/app/ml/service.py) -/

/-- `ConfusionState` from types.py. -/
structure ConfusionState where
  n_classes : ℕ
  counts : List (List ℚ)
deriving Repr, DecidableEq

/-- `ConfusionState.copy_with_increment`. -/
def ConfusionState.copy_with_increment (st : ConfusionState) (played selected : ℕ) :
    ConfusionState :=
  ⟨st.n_classes, matInc st.counts (played - 1) (selected - 1)⟩

/-- `ConfusionMLService.get_initial_state`: uniform pseudocount with a 3x
weight on the diagonal. -/
def confusion_get_initial_state (ptid : String) : ConfusionState :=
  let n := n_classes_of ptid
  let pc := (((get_problem_type ptid).map (·.pseudocount)).getD 0 : ℚ)
  ⟨n, (List.range n).map (fun i =>
      (List.range n).map (fun j => pc + if i = j then pc * 2 else 0))⟩

/-- `ConfusionMLService.update_state`: increment the count for
`(correct first syllable, selected first syllable)`. -/
def confusion_update_state (st : ConfusionState) (p : Problem) (a : Answer) :
    ConfusionState × List StateUpdate :=
  let correct_class := p.correct_sequence.getD 0 0
  let selected_class := a.selected_sequence.getD 0 0
  let old_value := matGet st.counts (correct_class - 1) (selected_class - 1)
  let upd : StateUpdate := ⟨"counts", old_value, old_value + 1⟩
  (st.copy_with_increment correct_class selected_class, [upd])

/-- `ConfusionMLService.get_all_pair_stats`: averaged directed success
rates per pair, with α and β floored at 0.1. -/
def confusion_get_all_pair_stats (ptid : String) (st : ConfusionState) :
    List ((ℕ × ℕ) × BetaParams) :=
  let n := n_classes_of ptid
  (pairList n).map (fun ij =>
    let i := ij.1 - 1
    let j := ij.2 - 1
    let p_correct_given_i := matGet st.counts i i / (matGet st.counts i i + matGet st.counts i j)
    let p_correct_given_j := matGet st.counts j j / (matGet st.counts j i + matGet st.counts j j)
    let avg_success := (p_correct_given_i + p_correct_given_j) / 2
    let n_obs := (matGet st.counts i i + matGet st.counts i j
                  + matGet st.counts j i + matGet st.counts j j) / 2
    let alpha := max (avg_success * n_obs) (1/10)
    let beta := max ((1 - avg_success) * n_obs) (1/10)
    (ij, BetaParams.mk alpha beta))

/-! ## Bradley-Terry model (src/backend/app/ml/bradley_terry.py, luce_service.py) -/

/-- One MM sweep of `compute_bt_strengths` (the body of its main loop):
`theta[i] = W_i / Σ_{j≠i} n_games[i][j] / (theta_old[i] + theta_old[j])`,
then normalization to sum `n`. -/
def btStep (regularized n_games : List (List ℚ)) (n : ℕ) (theta_old : List ℚ) : List ℚ :=
  let theta := (List.range n).map (fun i =>
    let w_i := (regularized.getD i []).sum
    let denom := ((List.range n).map (fun j =>
      if i ≠ j ∧ 0 < matGet n_games i j then
        matGet n_games i j / (theta_old.getD i 0 + theta_old.getD j 0)
      else 0)).sum
    if 0 < denom then w_i / denom else 1)
  let total := theta.sum
  if 0 < total then theta.map (fun t => t * n / total) else theta

/-- Maximum absolute componentwise change between two strength vectors. -/
def btMaxChange (theta theta_old : List ℚ) (n : ℕ) : ℚ :=
  (((List.range n).map (fun i => |theta.getD i 0 - theta_old.getD i 0|)).foldl max 0)

/-- The `for _ in range(max_iter)` loop of `compute_bt_strengths`, stopping
early when the max change drops below `tol`. -/
def btLoop (regularized n_games : List (List ℚ)) (n : ℕ) (tol : ℚ) :
    ℕ → List ℚ → List ℚ
  | 0, theta => theta
  | fuel + 1, theta_old =>
    let theta := btStep regularized n_games n theta_old
    if btMaxChange theta theta_old n < tol then theta
    else btLoop regularized n_games n tol fuel theta

/-- `compute_bt_strengths` from bradley_terry.py: MM algorithm (Hunter 2004)
with Laplace regularization, at most `max_iter` sweeps. -/
def compute_bt_strengths (wins : List (List ℚ)) (prior : ℚ)
    (max_iter : ℕ := 100) (tol : ℚ := 1/1000000) : List ℚ :=
  let n := wins.length
  if n = 0 then []
  else
    let regularized := wins.map (fun row => row.map (fun w => w + prior))
    let n_games := (List.range n).map (fun i =>
      (List.range n).map (fun j => matGet regularized i j + matGet regularized j i))
    btLoop regularized n_games n tol max_iter (List.replicate n 1)

/-- `BradleyTerryState` from luce_service.py (the transient strengths cache,
recomputed on demand and excluded from serialization, is not modelled). -/
structure BradleyTerryState where
  n_classes : ℕ
  counts : List (List ℚ)
  prior : ℚ
  model_version : ℕ
deriving Repr, DecidableEq

/-- `BradleyTerryState.copy_with_pairwise_wins`: `counts[winner-1][l-1] += 1`
for each loser `l` in order. -/
def BradleyTerryState.copy_with_pairwise_wins (st : BradleyTerryState)
    (winner : ℕ) (losers : List ℕ) : BradleyTerryState :=
  ⟨st.n_classes,
   losers.foldl (fun m l => matInc m (winner - 1) (l - 1)) st.counts,
   st.prior, 2⟩

/-- `BradleyTerryMLService.update_state`: the selected class beats every
other presented class (correct first, then alternative first syllables). -/
def bt_update_state (st : BradleyTerryState) (p : Problem) (a : Answer) :
    BradleyTerryState × List StateUpdate :=
  let correct_class := p.correct_sequence.getD 0 0
  let selected_class := a.selected_sequence.getD 0 0
  let alt_classes := p.alternatives.map (fun alt => alt.getD 0 0)
  let all_classes := correct_class :: alt_classes
  let losers := all_classes.filter (fun c => c ≠ selected_class)
  let updates := losers.map (fun l =>
    let old_value := matGet st.counts (selected_class - 1) (l - 1)
    StateUpdate.mk "wins" old_value (old_value + 1))
  (st.copy_with_pairwise_wins selected_class losers, updates)

/-- `BradleyTerryMLService.get_all_pair_stats`: pairwise Bradley-Terry
probability converted to Beta parameters, floored at 0.1. -/
def bt_get_all_pair_stats (ptid : String) (st : BradleyTerryState) :
    List ((ℕ × ℕ) × BetaParams) :=
  let theta := compute_bt_strengths st.counts st.prior
  let n := st.n_classes
  (pairList n).map (fun ij =>
    let i := ij.1 - 1
    let j := ij.2 - 1
    let theta_sum := theta.getD i 0 + theta.getD j 0
    let p_ij := if 0 < theta_sum then theta.getD i 0 / theta_sum else 1/2
    let n_ij := matGet st.counts i j + matGet st.counts j i + 2 * st.prior
    let discrimination := |p_ij - 1/2| * 2
    let effective_correct := 1/2 + discrimination * (1/2)
    let alpha := max (effective_correct * n_ij) (1/10)
    let beta := max ((1 - effective_correct) * n_ij) (1/10)
    (ij, BetaParams.mk alpha beta))

/-! ## Randomness model

The source draws ambient randomness from Python's `random` module.  We model
the generator as a stream of rational draws: `random.random()` consumes one
draw, `random.choice` / `random.randint` consume one draw and reduce it to an
index, `random.shuffle` consumes one draw per remaining element
(a Fisher-Yates selection).  Every theorem quantifies over the stream, so the
results hold for all draw sequences. -/

/-- A stream of random draws; an exhausted stream yields zeros. -/
abbrev Rng := List ℚ

/-- Take the next raw draw. -/
def rngNext : Rng → ℚ × Rng
  | [] => (0, [])
  | x :: xs => (x, xs)

/-- `random.random() < p`. -/
def rngBernoulli (p : ℚ) (r : Rng) : Bool × Rng :=
  let (x, r') := rngNext r
  (decide (x < p), r')

/-- A uniform index in `[0, n)` (`random.randint(0, n - 1)` and the index
drawn inside `random.choice`). -/
def rngIndex (n : ℕ) (r : Rng) : ℕ × Rng :=
  let (x, r') := rngNext r
  (x.floor.toNat % n, r')

/-- `random.choice(l)` (callers guarantee `l` non-empty; `d` is a dummy). -/
def rngChoice {α : Type} (l : List α) (d : α) (r : Rng) : α × Rng :=
  let (i, r') := rngIndex l.length r
  (l.getD i d, r')

/-- Remove the element at an index, returning it and the remainder. -/
def pickOut {α : Type} : List α → ℕ → Option (α × List α)
  | [], _ => none
  | a :: rest, 0 => some (a, rest)
  | a :: rest, i + 1 => (pickOut rest i).map (fun p => (p.1, a :: p.2))

/-- Fisher-Yates selection underlying `random.shuffle`. -/
def rngShuffleAux {α : Type} : ℕ → List α → Rng → List α × Rng
  | 0, l, r => (l, r)
  | _ + 1, [], r => ([], r)
  | fuel + 1, a :: l, r =>
    let (i, r') := rngIndex (a :: l).length r
    match pickOut (a :: l) i with
    | none => (a :: l, r')
    | some (b, rest) =>
      let (tail, r'') := rngShuffleAux fuel rest r'
      (b :: tail, r'')

/-- `random.shuffle(l)` (returning the shuffled copy). -/
def rngShuffle {α : Type} (l : List α) (r : Rng) : List α × Rng :=
  rngShuffleAux l.length l r

/-! ## Word index and ML-service interface -/

/-- `Word` from drill.py. -/
structure Word where
  id : ℤ
  vietnamese : String
  english : String
deriving Repr, DecidableEq

/-- A dummy word (Python would raise before ever using it). -/
def defaultWord : Word := ⟨0, "", ""⟩

/-- `_words_by_sequence`: insertion-ordered map from tone-sequence key to the
words with that key (keys modelled as the underlying class sequences). -/
abbrev WordIndex := List (List ℕ × List Word)

/-- `self._words_by_sequence.get(key, [])`. -/
def lookupWords (widx : WordIndex) (k : List ℕ) : List Word :=
  ((widx.find? (fun e => e.1 = k)).map (·.2)).getD []

/-- The per-problem-type posterior dictionary passed through the sampler. -/
abbrev StatesMap (σ : Type) := List (String × σ)

/-- `states.get(problem_type_id)`. -/
def lookupState {σ : Type} (states : StatesMap σ) (k : String) : Option σ :=
  (states.find? (fun e => e.1 = k)).map (·.2)

/-- The polymorphic ML-service interface (`MLServiceProtocol` in service.py),
over an abstract posterior state type `σ`. -/
structure MLService (σ : Type) where
  get_initial_state : String → σ
  get_success_distribution : Problem → σ → BetaParams
  update_state : σ → Problem → Answer → σ × List StateUpdate
  get_all_pair_stats : String → σ → List ((ℕ × ℕ) × BetaParams)

/-- The production Luce service instance (`get_ml_service` default "luce"). -/
def luceService (prior : ℚ) : MLService LuceState :=
  ⟨luce_get_initial_state prior, luce_get_success_distribution,
   luce_update_state, luce_get_all_pair_stats⟩

/-- `states.get(ptid)` with fallback to `ml.get_initial_state(ptid)`. -/
def get_state_or_initial {σ : Type} (ml : MLService σ) (states : StatesMap σ)
    (ptid : String) : σ :=
  match lookupState states ptid with
  | some s => s
  | none => ml.get_initial_state ptid

/-! ## Drill sampler (src/backend/app/services/drill.py) -/

/-- `PAIR_MASTERY_THRESHOLD = 0.80`. -/
def PAIR_MASTERY_THRESHOLD : ℚ := 8/10

/-- `FOUR_CHOICE_MASTERY_THRESHOLD = 0.90`. -/
def FOUR_CHOICE_MASTERY_THRESHOLD : ℚ := 9/10

/-- `PREVIEW_PROBABILITY = 0.2`. -/
def PREVIEW_PROBABILITY : ℚ := 2/10

/-- `SAMPLING_AGGRESSIVENESS = 3.0` (used as an exponent; its value is the
integer 3). -/
def SAMPLING_AGGRESSIVENESS : ℕ := 3

/-- `N_TONES = 6`. -/
def N_TONES : ℕ := 6

/-- `DrillService._get_all_four_choice_sets`: all 6-choose-4 subsets,
obtained by excluding each 1-indexed pair. -/
def get_all_four_choice_sets : List (List ℕ) :=
  (pairList N_TONES).map (fun e =>
    ((List.range N_TONES).map (· + 1)).filter (fun t => t ≠ e.1 ∧ t ≠ e.2))

/-- The dummy 4-choice problem built inside `_get_difficulty_level` and
`get_four_choice_stats` (the alternatives list is the whole set, so it
contains the correct class as well). -/
def fourChoiceDummyProblem (ptid : String) (c : ℕ) (s : List ℕ) : Problem :=
  ⟨ptid, 0, "", 0, [c], s.map (fun x => [x])⟩

/-- `DrillService._get_difficulty_level`: "2-choice" when some pair mean is
below `PAIR_MASTERY_THRESHOLD`; else "mixed" when some class of some
four-choice set has predicted success mean below
`FOUR_CHOICE_MASTERY_THRESHOLD`; else "4-choice-multi". -/
def get_difficulty_level {σ : Type} (ml : MLService σ) (state : σ) : String :=
  let ptid := make_problem_type_id "tone" 1
  let pair_stats := ml.get_all_pair_stats ptid state
  if pair_stats.any (fun e => e.2.mean < PAIR_MASTERY_THRESHOLD) then "2-choice"
  else if get_all_four_choice_sets.any (fun s =>
      s.any (fun c =>
        (ml.get_success_distribution (fourChoiceDummyProblem ptid c s) state).mean
          < FOUR_CHOICE_MASTERY_THRESHOLD)) then "mixed"
  else "4-choice-multi"

/-- The prefix-sum walk inside `DrillService._weighted_sample`. -/
def weightedWalk (r : ℚ) : List ℚ → ℕ → ℕ → ℕ
  | [], _, last => last
  | w :: ws, i, last => if r - w ≤ 0 then i else weightedWalk (r - w) ws (i + 1) last

/-- `DrillService._weighted_sample`: index proportional to weights; uniform
when the weights sum to zero. -/
def weighted_sample (weights : List ℚ) (r : Rng) : ℕ × Rng :=
  let total := weights.sum
  if total = 0 then rngIndex weights.length r
  else
    let (x, r') := rngNext r
    (weightedWalk (x * total) weights 0 (weights.length - 1), r')

/-- The per-syllable mutation attempt shared by `_generate_distractors` and
`_generate_single_distractor`: with probability 0.7 replace the class by a
random different class, else keep it. -/
def gen_seq_attempt (correct : List ℕ) (r : Rng) : List ℕ × Rng :=
  correct.foldl (fun acc c =>
    let (flip, r1) := rngBernoulli (7/10) acc.2
    if flip then
      let other_classes := ((List.range N_TONES).map (· + 1)).filter (fun x => x ≠ c)
      let (x, r2) := rngChoice other_classes 0 r1
      (acc.1 ++ [x], r2)
    else (acc.1 ++ [c], r1)) ([], r)

/-- The `for _ in range(50)` collection loop of `_generate_distractors`. -/
def generate_distractors_loop (correct : List ℕ) :
    ℕ → List (List ℕ) → Rng → List (List ℕ) × Rng
  | 0, ds, r => (ds, r)
  | fuel + 1, ds, r =>
    if 4 ≤ ds.length then (ds, r)
    else
      let (new_seq, r') := gen_seq_attempt correct r
      let ds' := if new_seq ≠ correct ∧ new_seq ∉ ds then ds ++ [new_seq] else ds
      generate_distractors_loop correct fuel ds' r'

/-- The `while len(distractors) < 4` fill loop of `_generate_distractors`.
Each pass appends exactly one sequence, so running it with fuel 4 on the
non-empty collected list is equivalent to the unbounded source loop. -/
def fill_distractors (correct : List ℕ) : ℕ → List (List ℕ) → List (List ℕ)
  | 0, ds => ds
  | fuel + 1, ds =>
    if 4 ≤ ds.length then ds
    else
      let fb := correct.map (fun c => c % N_TONES + 1)
      let ds' := if fb ∉ ds then ds ++ [fb]
                 else ds ++ [(List.range correct.length).map (fun i => i % N_TONES + 1)]
      fill_distractors correct fuel ds'

/-- `DrillService._generate_distractors`: the correct sequence plus collected
distinct mutations, padded to four entries, then shuffled. -/
def generate_distractors (correct : List ℕ) (r : Rng) : List (List ℕ) × Rng :=
  let collected := generate_distractors_loop correct 50 [correct] r
  rngShuffle (fill_distractors correct 4 collected.1) collected.2

/-- The `for _ in range(50)` retry loop of `_generate_single_distractor`;
on exhaustion the fallback changes the first syllable. -/
def generate_single_distractor_loop (correct : List ℕ) : ℕ → Rng → List ℕ × Rng
  | 0, r => (correct.set 0 (correct.getD 0 0 % N_TONES + 1), r)
  | fuel + 1, r =>
    let (new_seq, r') := gen_seq_attempt correct r
    if new_seq ≠ correct then (new_seq, r')
    else generate_single_distractor_loop correct fuel r'

/-- `DrillService._generate_single_distractor`. -/
def generate_single_distractor (correct : List ℕ) (r : Rng) : List ℕ × Rng :=
  generate_single_distractor_loop correct 50 r

/-- The word lookup, class fallback and problem construction at the end of
`DrillService._sample_2_choice` (from `words = ...get(str(selected_class))`
on), given the selected pair and the class drawn from it. -/
def sample_2_choice_finish (ptid : String) (widx : WordIndex)
    (selected_pair : ℕ × ℕ) (first_class : ℕ) (r : Rng) : Option Problem × Rng :=
  let words0 := lookupWords widx [first_class]
  let other_class := if first_class = selected_pair.1 then selected_pair.2 else selected_pair.1
  let selected_words :=
    if words0.isEmpty then
      let words1 := lookupWords widx [other_class]
      if words1.isEmpty then (first_class, words1) else (other_class, words1)
    else (first_class, words0)
  if selected_words.2.isEmpty then (none, r)
  else
    let (word, r1) := rngChoice selected_words.2 defaultWord r
    (some ⟨ptid, word.id, word.vietnamese, 0, [selected_words.1],
           [[selected_pair.1], [selected_pair.2]]⟩, r1)

/-- `DrillService._sample_2_choice`: pair weighted by cubed error, one class
of the pair as correct, both classes as the alternatives. -/
def sample_2_choice {σ : Type} (ml : MLService σ) (widx : WordIndex)
    (states : StatesMap σ) (r : Rng) : Option Problem × Rng :=
  let ptid := make_problem_type_id "tone" 1
  let state := get_state_or_initial ml states ptid
  let pair_stats := ml.get_all_pair_stats ptid state
  let pairs := pair_stats.map (·.1)
  let error_probs := pair_stats.map (fun e => (1 - e.2.mean) ^ SAMPLING_AGGRESSIVENESS)
  let (idx, r1) := weighted_sample error_probs r
  let selected_pair := pairs.getD idx (0, 0)
  let (coin, r2) := rngBernoulli (1/2) r1
  let first_class := if coin then selected_pair.1 else selected_pair.2
  sample_2_choice_finish ptid widx selected_pair first_class r2

/-- The `for i, a in enumerate(s): for b in s[i+1:]` pair traversal used to
weight four-choice sets. -/
def inner_pairs : List ℕ → List (ℕ × ℕ)
  | [] => []
  | a :: rest => rest.map (fun b => (a, b)) ++ inner_pairs rest

/-- `pair_stats` dictionary lookup (`if pair_key in pair_stats`). -/
def lookup_pair_stat (stats : List ((ℕ × ℕ) × BetaParams)) (k : ℕ × ℕ) :
    Option BetaParams :=
  (stats.find? (fun e => e.1 = k)).map (·.2)

/-- The `for cls in selected_set` word-search loop of `_sample_4_choice`. -/
def first_class_with_words (widx : WordIndex) : List ℕ → Option (ℕ × List Word)
  | [] => none
  | c :: rest =>
    let ws := lookupWords widx [c]
    if ws.isEmpty then first_class_with_words widx rest else some (c, ws)

/-- The word-search loop and problem construction at the end of
`DrillService._sample_4_choice` (from `for cls in selected_set:` on). -/
def sample_4_choice_finish (ptid : String) (widx : WordIndex)
    (selected_set : List ℕ) (r : Rng) : Option Problem × Rng :=
  match first_class_with_words widx selected_set with
  | none => (none, r)
  | some (cls, ws) =>
    let (word, r1) := rngChoice ws defaultWord r
    (some ⟨ptid, word.id, word.vietnamese, 0, [cls],
           selected_set.map (fun c => [c])⟩, r1)

/-- The per-set error weights of `DrillService._sample_4_choice`: average
pair error over the pairs inside each four-class set. -/
def sample_4_choice_error_probs {σ : Type} (ml : MLService σ)
    (states : StatesMap σ) : List ℚ :=
  let ptid := make_problem_type_id "tone" 1
  let state := get_state_or_initial ml states ptid
  let pair_stats := ml.get_all_pair_stats ptid state
  get_all_four_choice_sets.map (fun s =>
    let ps := inner_pairs s
    let terms := ps.map (fun ab =>
      match lookup_pair_stat pair_stats (min ab.1 ab.2, max ab.1 ab.2) with
      | some b => 1 - b.mean
      | none => 0)
    let cnt := ps.countP (fun ab =>
      (lookup_pair_stat pair_stats (min ab.1 ab.2, max ab.1 ab.2)).isSome)
    terms.sum / (max cnt 1 : ℚ))

/-- `DrillService._sample_4_choice`: four-class set weighted by average pair
error, shuffled; the first class with words is correct, the whole set forms
the alternatives. -/
def sample_4_choice {σ : Type} (ml : MLService σ) (widx : WordIndex)
    (states : StatesMap σ) (r : Rng) : Option Problem × Rng :=
  let ptid := make_problem_type_id "tone" 1
  let error_probs := sample_4_choice_error_probs ml states
  let (idx, r1) := weighted_sample error_probs r
  let (selected_set, r2) := rngShuffle (get_all_four_choice_sets.getD idx []) r1
  sample_4_choice_finish ptid widx selected_set r2

/-- The two-syllable keys of the index
(`len(k.split('-')) == 2` on dash-joined keys). -/
def two_syllable_keys (widx : WordIndex) : List (List ℕ) :=
  (widx.map (·.1)).filter (fun k => k.length = 2)

/-- The word lookup, distractor generation and problem construction at the
end of `DrillService._sample_2_choice_multi_syllable`, given the chosen key. -/
def sample_2_choice_multi_finish (ptid : String) (widx : WordIndex)
    (key : List ℕ) (r : Rng) : Option Problem × Rng :=
  let words := lookupWords widx key
  if words.isEmpty then (none, r)
  else
    let (word, r1) := rngChoice words defaultWord r
    let correct_sequence := key
    let (distractor, r2) := generate_single_distractor correct_sequence r1
    let (alternatives, r3) := rngShuffle [correct_sequence, distractor] r2
    (some ⟨ptid, word.id, word.vietnamese, 0, correct_sequence, alternatives⟩, r3)

/-- `DrillService._sample_2_choice_multi_syllable`: random two-syllable word,
one generated distractor, shuffled pair of choices. -/
def sample_2_choice_multi_syllable {σ : Type} (ml : MLService σ) (widx : WordIndex)
    (states : StatesMap σ) (r : Rng) : Option Problem × Rng :=
  let keys := two_syllable_keys widx
  if keys.isEmpty then (none, r)
  else
    let ptid := make_problem_type_id "tone" 2
    let _state := get_state_or_initial ml states ptid
    let (key, r1) := rngChoice keys [] r
    sample_2_choice_multi_finish ptid widx key r1

/-- The word lookup, distractor generation and problem construction at the
end of `DrillService._sample_4_choice_multi_syllable`, given the chosen key. -/
def sample_4_choice_multi_finish (ptid : String) (widx : WordIndex)
    (key : List ℕ) (r : Rng) : Option Problem × Rng :=
  let words := lookupWords widx key
  if words.isEmpty then (none, r)
  else
    let (word, r1) := rngChoice words defaultWord r
    let correct_sequence := key
    let (alternatives, r2) := generate_distractors correct_sequence r1
    (some ⟨ptid, word.id, word.vietnamese, 0, correct_sequence, alternatives⟩, r2)

/-- `DrillService._sample_4_choice_multi_syllable`: random two-syllable word
with the full generated distractor list as alternatives. -/
def sample_4_choice_multi_syllable {σ : Type} (ml : MLService σ) (widx : WordIndex)
    (states : StatesMap σ) (r : Rng) : Option Problem × Rng :=
  let keys := two_syllable_keys widx
  if keys.isEmpty then (none, r)
  else
    let ptid := make_problem_type_id "tone" 2
    let _state := get_state_or_initial ml states ptid
    let (key, r1) := rngChoice keys [] r
    sample_4_choice_multi_finish ptid widx key r1

/-- The absolute fallback problem of `_sample_fallback`:
`(word_id=0, "xin chào", correct=[1], alternatives=[[1],[2]])`. -/
def canonical_problem : Problem :=
  ⟨make_problem_type_id "tone" 1, 0, "xin chào", 0, [1], [[1], [2]]⟩

/-- The `for key, words in self._words_by_sequence.items()` loop of
`_sample_fallback`, ending at the canonical problem. -/
def sample_fallback_loop : WordIndex → Rng → Problem × Rng
  | [], r => (canonical_problem, r)
  | (key, ws) :: rest, r =>
    if ws.isEmpty then sample_fallback_loop rest r
    else
      let (word, r) := rngChoice ws defaultWord r
      let correct_sequence := key
      let ptid := make_problem_type_id "tone" correct_sequence.length
      let (alternatives, r) := generate_distractors correct_sequence r
      (⟨ptid, word.id, word.vietnamese, 0, correct_sequence, alternatives⟩, r)

/-- `DrillService._sample_fallback`. -/
def sample_fallback (widx : WordIndex) (r : Rng) : Problem × Rng :=
  sample_fallback_loop widx r

/-- The preview block of `DrillService._sample_problem` (entered with
probability `PREVIEW_PROBABILITY`). -/
def sample_problem_preview {σ : Type} (ml : MLService σ) (widx : WordIndex)
    (states : StatesMap σ) (difficulty : String) (r : Rng) : Option Problem × Rng :=
  if difficulty = "2-choice" then
    let (coin, r1) := rngBernoulli (1/2) r
    if coin then sample_4_choice ml widx states r1
    else sample_2_choice_multi_syllable ml widx states r1
  else if difficulty = "mixed" then sample_4_choice_multi_syllable ml widx states r
  else (none, r)

/-- The per-tier sampler dispatch of `DrillService._sample_problem`. -/
def sample_problem_main {σ : Type} (ml : MLService σ) (widx : WordIndex)
    (states : StatesMap σ) (difficulty : String) (r : Rng) : Option Problem × Rng :=
  if difficulty = "2-choice" then sample_2_choice ml widx states r
  else if difficulty = "mixed" then
    let (coin, r1) := rngBernoulli (1/2) r
    if coin then sample_4_choice ml widx states r1
    else sample_2_choice_multi_syllable ml widx states r1
  else sample_4_choice_multi_syllable ml widx states r

/-- The non-preview tail of `DrillService._sample_problem`: the tier's
sampler, then the fallback chain. -/
def sample_problem_rest {σ : Type} (ml : MLService σ) (widx : WordIndex)
    (states : StatesMap σ) (difficulty : String) (r : Rng) : Problem × Rng :=
  let (problem, r2) := sample_problem_main ml widx states difficulty r
  match problem with
  | some p => (p, r2)
  | none => sample_fallback widx r2

/-- `DrillService._sample_problem`: optional preview of the next tier, then
the tier's sampler, then the fallback chain. -/
def sample_problem {σ : Type} (ml : MLService σ) (widx : WordIndex)
    (states : StatesMap σ) (difficulty : String) (r : Rng) : Problem × Rng :=
  let (preview, r0) := rngBernoulli PREVIEW_PROBABILITY r
  let (pre, r1) :=
    if preview then sample_problem_preview ml widx states difficulty r0
    else (none, r0)
  match pre with
  | some p => (p, r1)
  | none => sample_problem_rest ml widx states difficulty r1

/-! ## Lesson controller (src/backend/app/services/lesson.py) -/

/-- `DRILLS_PER_LESSON = 10`. -/
def DRILLS_PER_LESSON : ℕ := 10

/-- `LessonPhase`. -/
inductive LessonPhase
  | learning
  | review
  | complete
deriving Repr, DecidableEq

/-- `DrillMode`. -/
inductive DrillMode
  | two_choice_1syl
  | four_choice_1syl
  | two_choice_2syl
deriving Repr, DecidableEq

/-- `MistakeRecord`. -/
structure MistakeRecord where
  problem : Problem
  mode : DrillMode
  user_selected : List ℕ
deriving Repr, DecidableEq

/-- `LessonState` (in-memory session state). -/
structure LessonState where
  lesson_id : ℕ
  theme_id : ℤ
  theme_pairs : List (ℕ × ℕ)
  drill_sequence : List DrillMode
  current_index : ℕ
  phase : LessonPhase
  mistakes : List MistakeRecord
  review_index : ℕ
deriving Repr, DecidableEq

/-- `LESSON_THEMES`. -/
def LESSON_THEMES : List (List (ℕ × ℕ)) :=
  [[(1,2),(1,3)], [(2,3),(2,4)], [(3,4),(4,5)], [(5,6),(3,6)],
   [(1,4),(1,5)], [(2,5),(2,6)], [(3,5),(4,6)], [(1,6),(2,3)]]

/-- `LessonService._generate_drill_sequence`: shuffled multiset of
six 2-choice-1syl, two 4-choice-1syl, two 2-choice-2syl modes. -/
def generate_drill_sequence (r : Rng) : List DrillMode × Rng :=
  rngShuffle
    (List.replicate 6 DrillMode.two_choice_1syl
      ++ List.replicate 2 DrillMode.four_choice_1syl
      ++ List.replicate 2 DrillMode.two_choice_2syl) r

/-- The word lookup, class fallback and problem construction at the end of
`LessonService._sample_2_choice_themed` (which, unlike the drill service's
version, always switches to the other class on a miss and falls back to
`_sample_fallback`). -/
def sample_2_choice_themed_finish (widx : WordIndex) (pair : ℕ × ℕ)
    (first_class : ℕ) (r : Rng) : Problem × Rng :=
  let words0 := lookupWords widx [first_class]
  let other_class := if first_class = pair.1 then pair.2 else pair.1
  let sel :=
    if words0.isEmpty then (other_class, lookupWords widx [other_class])
    else (first_class, words0)
  if sel.2.isEmpty then sample_fallback widx r
  else
    let (word, r1) := rngChoice sel.2 defaultWord r
    (⟨make_problem_type_id "tone" 1, word.id, word.vietnamese, 0, [sel.1],
      [[pair.1], [pair.2]]⟩, r1)

/-- `LessonService._sample_2_choice_themed`: one theme pair, one class of it
as correct, both classes as the alternatives. -/
def sample_2_choice_themed (widx : WordIndex) (theme_pairs : List (ℕ × ℕ))
    (r : Rng) : Problem × Rng :=
  let (pair, r1) := rngChoice theme_pairs (0, 0) r
  let (coin, r2) := rngBernoulli (1/2) r1
  sample_2_choice_themed_finish widx pair (if coin then pair.1 else pair.2) r2

/-- The word lookup, in-set retry loop and problem construction at the end
of `LessonService._sample_4_choice_themed`, given the built four-class set
and the class drawn from it. -/
def sample_4_choice_themed_finish (widx : WordIndex) (four_set : List ℕ)
    (c0 : ℕ) (r : Rng) : Problem × Rng :=
  let words0 := lookupWords widx [c0]
  let sel := if words0.isEmpty then first_class_with_words widx four_set
             else some (c0, words0)
  match sel with
  | none => sample_fallback widx r
  | some (cls, ws) =>
    let (word, r1) := rngChoice ws defaultWord r
    (⟨make_problem_type_id "tone" 1, word.id, word.vietnamese, 0, [cls],
      four_set.map (fun c => [c])⟩, r1)

/-- `LessonService._sample_4_choice_themed`: a theme pair extended by two
random other classes; one class of the set as correct, the whole set as the
alternatives. -/
def sample_4_choice_themed (widx : WordIndex) (theme_pairs : List (ℕ × ℕ))
    (r : Rng) : Problem × Rng :=
  let (pair, r1) := rngChoice theme_pairs (0, 0) r
  let all_tones := (List.range N_TONES).map (· + 1)
  let remaining := all_tones.filter (fun t => t ≠ pair.1 ∧ t ≠ pair.2)
  let (remaining2, r2) := rngShuffle remaining r1
  let (four_set, r3) := rngShuffle (pair.1 :: pair.2 :: remaining2.take 2) r2
  let (c0, r4) := rngChoice four_set 0 r3
  sample_4_choice_themed_finish widx four_set c0 r4

/-- The distractor generation and problem construction at the end of
`LessonService._sample_2_choice_2syl_themed`, given the chosen candidate
`(word, key)`. -/
def sample_2syl_themed_finish (wk : Word × List ℕ) (r : Rng) : Problem × Rng :=
  let correct_sequence := wk.2
  let (distractor, r1) := generate_single_distractor correct_sequence r
  let (alternatives, r2) := rngShuffle [correct_sequence, distractor] r1
  (⟨make_problem_type_id "tone" 2, wk.1.id, wk.1.vietnamese, 0,
    correct_sequence, alternatives⟩, r2)

/-- The candidate `(word, key)` list of
`LessonService._sample_2_choice_2syl_themed`: two-syllable keys with a theme
tone in either syllable, one entry per word. -/
def themed_2syl_candidates (widx : WordIndex) (theme_pairs : List (ℕ × ℕ)) :
    List (Word × List ℕ) :=
  let theme_tones := theme_pairs.flatMap (fun p => [p.1, p.2])
  widx.flatMap (fun e =>
    if e.1.length = 2 ∧ (e.1.getD 0 0 ∈ theme_tones ∨ e.1.getD 1 0 ∈ theme_tones)
    then e.2.map (fun w => (w, e.1)) else [])

/-- `LessonService._sample_2_choice_2syl_themed`: a two-syllable word with a
theme tone in either syllable, one generated distractor, shuffled choices. -/
def sample_2_choice_2syl_themed {σ : Type} (ml : MLService σ) (widx : WordIndex)
    (theme_pairs : List (ℕ × ℕ)) (states : StatesMap σ) (r : Rng) : Problem × Rng :=
  let candidates := themed_2syl_candidates widx theme_pairs
  if candidates.isEmpty then
    match sample_2_choice_multi_syllable ml widx states r with
    | (some p, r1) => (p, r1)
    | (none, r1) => sample_fallback widx r1
  else
    let (i, r1) := rngIndex candidates.length r
    sample_2syl_themed_finish (candidates.getD i (defaultWord, [])) r1

/-- `LessonService._sample_drill_for_mode`. -/
def sample_drill_for_mode {σ : Type} (ml : MLService σ) (widx : WordIndex)
    (mode : DrillMode) (theme_pairs : List (ℕ × ℕ)) (states : StatesMap σ)
    (r : Rng) : Problem × Rng :=
  match mode with
  | DrillMode.two_choice_1syl => sample_2_choice_themed widx theme_pairs r
  | DrillMode.four_choice_1syl => sample_4_choice_themed widx theme_pairs r
  | DrillMode.two_choice_2syl => sample_2_choice_2syl_themed ml widx theme_pairs states r

/-- The dummy mistake record (Python would raise before using it). -/
def defaultMistake : MistakeRecord := ⟨canonical_problem, DrillMode.two_choice_1syl, []⟩

/-- `LessonService._get_review_drill`: replay the stored mistake at the
review cursor; complete when the cursor reaches the mistake count. -/
def get_review_drill (st : LessonState) : Option (Problem × DrillMode) × LessonState :=
  if st.mistakes.length ≤ st.review_index then
    (none, { st with phase := LessonPhase.complete })
  else
    let m := st.mistakes.getD st.review_index defaultMistake
    (some (m.problem, m.mode), st)

/-- `LessonService._get_learning_drill`: issue the planned drill at the
cursor; at the end of the plan transition to review (if mistakes were
recorded, immediately issuing the first review drill) or to complete. -/
def get_learning_drill {σ : Type} (ml : MLService σ) (widx : WordIndex)
    (states : StatesMap σ) (st : LessonState) (r : Rng) :
    Option (Problem × DrillMode) × LessonState × Rng :=
  if st.drill_sequence.length ≤ st.current_index then
    if st.mistakes.isEmpty then (none, { st with phase := LessonPhase.complete }, r)
    else
      let st1 := { st with phase := LessonPhase.review }
      let (d, st2) := get_review_drill st1
      (d, st2, r)
  else
    let mode := st.drill_sequence.getD st.current_index DrillMode.two_choice_1syl
    let (p, r') := sample_drill_for_mode ml widx mode st.theme_pairs states r
    (some (p, mode), st, r')

/-- `LessonService.get_next_drill` (the per-session progress dict it also
returns is derived data and not modelled). -/
def lesson_get_next_drill {σ : Type} (ml : MLService σ) (widx : WordIndex)
    (states : StatesMap σ) (st : LessonState) (r : Rng) :
    Option (Problem × DrillMode) × LessonState × Rng :=
  match st.phase with
  | LessonPhase.learning => get_learning_drill ml widx states st r
  | LessonPhase.review =>
    let (d, st') := get_review_drill st
    (d, st', r)
  | LessonPhase.complete => (none, st, r)

/-- `LessonService.record_answer`: collect mistakes and advance the learning
cursor, or advance the review cursor (single pass, no recursion). -/
def record_answer (st : LessonState) (problem : Problem) (mode : DrillMode)
    (selected_sequence : List ℕ) (is_correct : Bool) : LessonState :=
  match st.phase with
  | LessonPhase.learning =>
    { st with
      mistakes := if is_correct then st.mistakes
                  else st.mistakes ++ [⟨problem, mode, selected_sequence⟩],
      current_index := st.current_index + 1 }
  | LessonPhase.review => { st with review_index := st.review_index + 1 }
  | LessonPhase.complete => st

/-- The client loop of a lesson session: repeatedly fetch the next drill and
record the answer, consuming one correctness flag per issued drill; returns
the issued `(problem, mode)` trace and the final session state. -/
def run_lesson {σ : Type} (ml : MLService σ) (widx : WordIndex)
    (states : StatesMap σ) : ℕ → LessonState → Rng → List Bool →
    List (Problem × DrillMode) × LessonState
  | 0, st, _, _ => ([], st)
  | fuel + 1, st, r, answers =>
    match lesson_get_next_drill ml widx states st r with
    | (none, st', _) => ([], st')
    | (some (p, m), st', r') =>
      match answers with
      | [] => ([(p, m)], st')
      | b :: rest =>
        let st2 := record_answer st' p m (if b then p.correct_sequence else []) b
        let rec2 := run_lesson ml widx states fuel st2 r' rest
        ((p, m) :: rec2.1, rec2.2)

/-! ## Replay (src/backend/scripts/replay_state.py)

`replay_attempts` partitions the attempt log by the problem type derived from
the syllable count and, per problem type, folds `ml.update_state` over the
records in order starting from `ml.get_initial_state`.  Restricted to the
events of one problem type under the production Luce model this is the
following fold. -/

/-- Replay of one problem type's ordered attempt events through
`LuceMLService.update_state` from a given initial state. -/
def replay_attempts_one_type (events : List (Problem × Answer)) (init : LuceState) :
    LuceState :=
  events.foldl (fun st e => (luce_update_state st e.1 e.2).1) init

/-! ## Helper lemmas: nested-list matrices -/

theorem getD_set_eq {α : Type} (l : List α) (i : ℕ) (x d : α) (h : i < l.length) :
    (l.set i x).getD i d = x := by
  induction l generalizing i with
  | nil => simp at h
  | cons a t ih =>
    cases i with
    | zero => simp [List.set, List.getD]
    | succ k =>
      simp only [List.set, List.getD_cons_succ]
      exact ih k (by simpa using h)

theorem getD_set_ne {α : Type} (l : List α) (i j : ℕ) (x d : α) (h : i ≠ j) :
    (l.set i x).getD j d = l.getD j d := by
  induction l generalizing i j with
  | nil => simp [List.set]
  | cons a t ih =>
    cases i with
    | zero =>
      cases j with
      | zero => exact absurd rfl h
      | succ k => simp [List.set, List.getD_cons_succ]
    | succ k =>
      cases j with
      | zero => simp [List.set, List.getD_cons_zero]
      | succ m =>
        simp only [List.set, List.getD_cons_succ]
        exact ih k m (by omega)

theorem getD_mem {α : Type} (l : List α) (i : ℕ) (d : α) (h : i < l.length) :
    l.getD i d ∈ l := by
  induction l generalizing i with
  | nil => simp at h
  | cons a t ih =>
    cases i with
    | zero => simp [List.getD_cons_zero]
    | succ k =>
      simp only [List.getD_cons_succ]
      exact List.mem_cons_of_mem _ (ih k (by simpa using h))

theorem matShape_rowlen {m : List (List ℚ)} {n : ℕ} (h : matShape m n)
    (i : ℕ) (hi : i < n) : (m.getD i []).length = n :=
  h.2 _ (getD_mem m i [] (h.1 ▸ hi))

/-- Cell-level description of `matInc` on an in-shape matrix. -/
theorem matGet_matInc {m : List (List ℚ)} {n : ℕ} (h : matShape m n)
    (a b i j : ℕ) (ha : a < n) (hb : b < n) (hi : i < n) :
    matGet (matInc m a b) i j
      = matGet m i j + if a = i ∧ b = j then 1 else 0 := by
  unfold matInc matGet
  by_cases hai : a = i
  · subst hai
    rw [getD_set_eq _ _ _ _ (h.1 ▸ ha)]
    by_cases hbj : b = j
    · subst hbj
      rw [getD_set_eq _ _ _ _ ((matShape_rowlen h a ha) ▸ hb)]
      simp [matGet]
    · rw [getD_set_ne _ _ _ _ _ hbj]
      simp [hbj]
  · rw [getD_set_ne _ _ _ _ _ hai]
    simp [hai]

theorem set_oob {α : Type} (l : List α) (i : ℕ) (x : α) (h : l.length ≤ i) :
    l.set i x = l := by
  induction l generalizing i with
  | nil => simp
  | cons a t ih =>
    cases i with
    | zero => simp at h
    | succ k => simp [List.set, ih k (by simpa using h)]

theorem matShape_matInc {m : List (List ℚ)} {n : ℕ} (h : matShape m n)
    (a b : ℕ) : matShape (matInc m a b) n := by
  by_cases ha : a < n
  · constructor
    · simpa [matInc] using h.1
    · intro row hrow
      rcases List.mem_or_eq_of_mem_set hrow with h1 | h1
      · exact h.2 _ h1
      · subst h1
        simp only [List.length_set]
        exact matShape_rowlen h a ha
  · unfold matInc
    have hlen : m.length = n := h.1
    rw [set_oob _ _ _ (by omega : m.length ≤ a)]
    exact h


theorem matNonneg_matInc {m : List (List ℚ)} (hnn : matNonneg m)
    (a b : ℕ) : matNonneg (matInc m a b) := by
  by_cases ha : a < m.length
  · intro row hrow x hx
    rcases List.mem_or_eq_of_mem_set hrow with h1 | h1
    · exact hnn _ h1 _ hx
    · subst h1
      rcases List.mem_or_eq_of_mem_set hx with h2 | h2
      · exact hnn _ (getD_mem m a [] ha) _ h2
      · subst h2
        have hx0 : 0 ≤ matGet m a b := by
          unfold matGet
          by_cases hb : b < (m.getD a []).length
          · exact hnn _ (getD_mem m a [] ha) _ (getD_mem _ b 0 hb)
          · rw [List.getD_eq_default _ _ (by omega)]
        linarith
  · unfold matInc
    rw [set_oob _ _ _ (by omega : m.length ≤ a)]
    exact hnn

/-! ## C1: Luce success distribution -/

/-- The presented first-syllable classes of a problem: the correct class
followed by the alternatives' first syllables (the list `A` of the spec). -/
def presented_first_classes (p : Problem) : List ℕ :=
  p.correct_sequence.getD 0 0 :: p.alternatives.map (fun a => a.getD 0 0)

/-- The spec's `p_correct = (C[i*][i*] + prior) / Σ_{k ∈ A} (C[i*][k] + prior)`
(§4.2.1), written from the spec's words. -/
def spec_luce_p_correct (C : List (List ℚ)) (prior : ℚ) (istar : ℕ) (A : List ℕ) : ℚ :=
  (matGet C (istar - 1) (istar - 1) + prior) /
    (A.map (fun k => matGet C (istar - 1) (k - 1) + prior)).sum

/-- The spec's `n_eff = Σ_j C[i*][j] + |A| · prior`, written from the spec's
words. -/
def spec_luce_n_eff (C : List (List ℚ)) (prior : ℚ) (istar : ℕ) (A : List ℕ) : ℚ :=
  (C.getD (istar - 1) []).sum + (A.length : ℚ) * prior

/-- The spec's Beta `α = p_correct · n_eff`, `β = (1 − p_correct) · n_eff`,
written from the spec's words. -/
def spec_luce_beta (C : List (List ℚ)) (prior : ℚ) (istar : ℕ) (A : List ℕ) :
    BetaParams :=
  ⟨spec_luce_p_correct C prior istar A * spec_luce_n_eff C prior istar A,
   (1 - spec_luce_p_correct C prior istar A) * spec_luce_n_eff C prior istar A⟩

/-- C1 (confirmed): for the reference Luce-pseudocount variant, for every
state with count matrix `C` and prior, and every problem whose correct
first-syllable class is `i*` and whose presented classes form the list `A`
(correct first, then the alternatives' first syllables),
`get_success_distribution` returns exactly the Beta of the spec formula:
`α = p_correct · n_eff`, `β = (1 − p_correct) · n_eff` with
`p_correct = (C[i*][i*] + prior) / Σ_{k ∈ A} (C[i*][k] + prior)` and
`n_eff = Σ_j C[i*][j] + |A| · prior`; when `n_eff ≠ 0` its mean is
`p_correct`. -/
theorem C1_luce_success_beta (st : LuceState) (p : Problem)
    (hn : spec_luce_n_eff st.counts st.prior (p.correct_sequence.getD 0 0)
        (presented_first_classes p) ≠ 0) :
    luce_get_success_distribution p st
      = spec_luce_beta st.counts st.prior (p.correct_sequence.getD 0 0)
          (presented_first_classes p)
    ∧ (luce_get_success_distribution p st).mean
      = spec_luce_p_correct st.counts st.prior (p.correct_sequence.getD 0 0)
          (presented_first_classes p) := by
  set istar := p.correct_sequence.getD 0 0 with histar
  have heq : luce_get_success_distribution p st
      = spec_luce_beta st.counts st.prior istar (presented_first_classes p) := by
    unfold luce_get_success_distribution spec_luce_beta spec_luce_p_correct
      spec_luce_n_eff presented_first_classes
    simp only [← histar, List.getD_cons_zero, List.map_cons, List.length_cons,
      List.length_map]
    congr 1 <;> ring
  refine ⟨heq, ?_⟩
  rw [heq]
  unfold spec_luce_beta BetaParams.mean
  simp only
  set pc := spec_luce_p_correct st.counts st.prior istar (presented_first_classes p)
  set neff := spec_luce_n_eff st.counts st.prior istar (presented_first_classes p)
  have hsum : pc * neff + (1 - pc) * neff = neff := by ring
  rw [hsum, mul_div_assoc, div_self hn, mul_one]

/-- Witness for `C1_luce_success_beta` at the initial tone state and the
two-choice problem `(correct=[1], alts=[[2]])`, where `n_eff = 2 ≠ 0`. -/
theorem C1_witness :
    (spec_luce_n_eff (luce_get_initial_state 1 "tone_1").counts
        (luce_get_initial_state 1 "tone_1").prior
        ((Problem.mk "tone_1" 0 "" 0 [1] [[2]]).correct_sequence.getD 0 0)
        (presented_first_classes (Problem.mk "tone_1" 0 "" 0 [1] [[2]])) ≠ 0)
    ∧ (luce_get_success_distribution (Problem.mk "tone_1" 0 "" 0 [1] [[2]])
          (luce_get_initial_state 1 "tone_1")
        = spec_luce_beta (luce_get_initial_state 1 "tone_1").counts
            (luce_get_initial_state 1 "tone_1").prior
            ((Problem.mk "tone_1" 0 "" 0 [1] [[2]]).correct_sequence.getD 0 0)
            (presented_first_classes (Problem.mk "tone_1" 0 "" 0 [1] [[2]]))
      ∧ (luce_get_success_distribution (Problem.mk "tone_1" 0 "" 0 [1] [[2]])
            (luce_get_initial_state 1 "tone_1")).mean
        = spec_luce_p_correct (luce_get_initial_state 1 "tone_1").counts
            (luce_get_initial_state 1 "tone_1").prior
            ((Problem.mk "tone_1" 0 "" 0 [1] [[2]]).correct_sequence.getD 0 0)
            (presented_first_classes (Problem.mk "tone_1" 0 "" 0 [1] [[2]]))) := by
  have hn : spec_luce_n_eff (luce_get_initial_state 1 "tone_1").counts
      (luce_get_initial_state 1 "tone_1").prior
      ((Problem.mk "tone_1" 0 "" 0 [1] [[2]]).correct_sequence.getD 0 0)
      (presented_first_classes (Problem.mk "tone_1" 0 "" 0 [1] [[2]])) ≠ 0 := by
    norm_num [spec_luce_n_eff, presented_first_classes, luce_get_initial_state,
      n_classes_of, get_problem_type, PROBLEM_TYPES, List.replicate, List.getD]
  exact ⟨hn, C1_luce_success_beta (luce_get_initial_state 1 "tone_1")
    (Problem.mk "tone_1" 0 "" 0 [1] [[2]]) hn⟩

/-! ## C3: replay determinism -/

/-- The first-syllable correct class of a replayed event. -/
def eventCorrectFirst (e : Problem × Answer) : ℕ := e.1.correct_sequence.getD 0 0

/-- The first-syllable selected class of a replayed event. -/
def eventSelectedFirst (e : Problem × Answer) : ℕ := e.2.selected_sequence.getD 0 0

/-- An event's classes are in range for an `n`-class problem type. -/
def eventInRange (n : ℕ) (e : Problem × Answer) : Prop :=
  1 ≤ eventCorrectFirst e ∧ eventCorrectFirst e ≤ n
    ∧ 1 ≤ eventSelectedFirst e ∧ eventSelectedFirst e ≤ n

instance (n : ℕ) (e : Problem × Answer) : Decidable (eventInRange n e) := by
  unfold eventInRange; infer_instance

/-- C3 (confirmed): replaying a finite ordered event list of one problem type
through the reference Luce `update_state` from any initial state yields a
posterior whose cell `(i, j)` equals its initial value plus the number of
events whose first-syllable correct class is `i` and first-syllable selected
class is `j`. -/
theorem C3_replay_accumulates_counts (events : List (Problem × Answer))
    (init : LuceState) (n : ℕ) (hshape : matShape init.counts n)
    (hev : ∀ e ∈ events, eventInRange n e)
    (i j : ℕ) (hi1 : 1 ≤ i) (hin : i ≤ n) (hj1 : 1 ≤ j) (hjn : j ≤ n) :
    matGet (replay_attempts_one_type events init).counts (i - 1) (j - 1)
      = matGet init.counts (i - 1) (j - 1)
        + ((events.countP (fun e =>
            decide (eventCorrectFirst e = i ∧ eventSelectedFirst e = j)) : ℕ) : ℚ) := by
  induction events generalizing init with
  | nil => simp [replay_attempts_one_type]
  | cons e es ih =>
    have he := hev e (List.mem_cons_self e es)
    obtain ⟨hc1, hcn, hs1, hsn⟩ := he
    have hstep : replay_attempts_one_type (e :: es) init
        = replay_attempts_one_type es (luce_update_state init e.1 e.2).1 := rfl
    have hcounts : (luce_update_state init e.1 e.2).1.counts
        = matInc init.counts (eventCorrectFirst e - 1) (eventSelectedFirst e - 1) := rfl
    have hshape' : matShape (luce_update_state init e.1 e.2).1.counts n := by
      rw [hcounts]; exact matShape_matInc hshape _ _
    have hmain := ih (luce_update_state init e.1 e.2).1 hshape'
      (fun x hx => hev x (List.mem_cons_of_mem e hx))
    rw [hstep, hmain, hcounts,
      matGet_matInc hshape _ _ _ _ (by omega) (by omega) (by omega)]
    rw [List.countP_cons]
    by_cases hme : eventCorrectFirst e = i ∧ eventSelectedFirst e = j
    · have hind : (eventCorrectFirst e - 1 = i - 1 ∧ eventSelectedFirst e - 1 = j - 1) := by
        omega
      simp only [hme, hind, and_self]
      simp
      ring
    · have hind : ¬(eventCorrectFirst e - 1 = i - 1 ∧ eventSelectedFirst e - 1 = j - 1) := by
        omega
      simp only [hind, if_false]
      simp [hme]

/-- Witness for `C3_replay_accumulates_counts`: two concrete events
(`correct=1, selected=2` twice) replayed from the initial tone state, looking
at cell `(1, 2)`. -/
theorem C3_witness :
    (matShape (luce_get_initial_state 1 "tone_1").counts 6
      ∧ (∀ e ∈ [((Problem.mk "tone_1" 0 "" 0 [1] [[2]]), (Answer.mk [2] 500)),
                ((Problem.mk "tone_1" 0 "" 0 [1] [[2]]), (Answer.mk [2] 700))],
          eventInRange 6 e))
    ∧ matGet (replay_attempts_one_type
          [((Problem.mk "tone_1" 0 "" 0 [1] [[2]]), (Answer.mk [2] 500)),
           ((Problem.mk "tone_1" 0 "" 0 [1] [[2]]), (Answer.mk [2] 700))]
          (luce_get_initial_state 1 "tone_1")).counts 0 1
      = matGet (luce_get_initial_state 1 "tone_1").counts 0 1
        + (([((Problem.mk "tone_1" 0 "" 0 [1] [[2]]), (Answer.mk [2] 500)),
             ((Problem.mk "tone_1" 0 "" 0 [1] [[2]]), (Answer.mk [2] 700))].countP
            (fun e => decide (eventCorrectFirst e = 1 ∧ eventSelectedFirst e = 2)) : ℕ) : ℚ) := by
  have hshape : matShape (luce_get_initial_state 1 "tone_1").counts 6 := by
    have h6 : (luce_get_initial_state 1 "tone_1").counts
        = List.replicate 6 (List.replicate 6 0) := rfl
    rw [h6]
    constructor
    · simp
    · intro row hrow
      simp [List.eq_of_mem_replicate hrow]
  have hev : ∀ e ∈ [((Problem.mk "tone_1" 0 "" 0 [1] [[2]]), (Answer.mk [2] 500)),
                ((Problem.mk "tone_1" 0 "" 0 [1] [[2]]), (Answer.mk [2] 700))],
      eventInRange 6 e := by decide
  exact ⟨⟨hshape, hev⟩,
    C3_replay_accumulates_counts _ _ 6 hshape hev 1 2 (by decide) (by decide)
      (by decide) (by decide)⟩

/-! ## C2 and C7: the update rules -/

/-- The indicator cell formula for a single `matInc`-style fold used by the
Bradley-Terry update. -/
theorem matGet_foldl_matInc {m : List (List ℚ)} {n : ℕ} (h : matShape m n)
    (s : ℕ) (ls : List ℕ) (i j : ℕ) (hi : i < n) (hs : s - 1 < n)
    (hls : ∀ l ∈ ls, l - 1 < n) :
    matGet (ls.foldl (fun mm l => matInc mm (s - 1) (l - 1)) m) i j
      = matGet m i j
        + if i = s - 1 then ((ls.countP (fun l => decide (l - 1 = j)) : ℕ) : ℚ)
          else 0 := by
  induction ls generalizing m with
  | nil => simp
  | cons l rest ih =>
    have hstep : (l :: rest).foldl (fun mm x => matInc mm (s - 1) (x - 1)) m
        = rest.foldl (fun mm x => matInc mm (s - 1) (x - 1)) (matInc m (s - 1) (l - 1)) := rfl
    rw [hstep, ih (matShape_matInc h _ _) (fun x hx => hls x (List.mem_cons_of_mem l hx)),
      matGet_matInc h _ _ _ _ hs (hls l (List.mem_cons_self l rest)) hi,
      List.countP_cons]
    by_cases his : i = s - 1
    · by_cases hlj : l - 1 = j
      · rw [if_pos ⟨his.symm, hlj⟩, if_pos his, if_pos his,
          decide_eq_true hlj, if_pos rfl]
        push_cast
        ring
      · rw [if_neg (fun hc => hlj hc.2), if_pos his, if_pos his,
          decide_eq_false hlj, if_neg (by simp)]
        push_cast
        ring
    · rw [if_neg (fun hc => his hc.1.symm), if_neg his, if_neg his]
      ring

theorem matShape_foldl_matInc {m : List (List ℚ)} {n : ℕ} (h : matShape m n)
    (s : ℕ) (ls : List ℕ) :
    matShape (ls.foldl (fun mm l => matInc mm (s - 1) (l - 1)) m) n := by
  induction ls generalizing m with
  | nil => exact h
  | cons l rest ih => exact ih (matShape_matInc h _ _)

theorem matNonneg_foldl_matInc {m : List (List ℚ)} (h : matNonneg m)
    (s : ℕ) (ls : List ℕ) :
    matNonneg (ls.foldl (fun mm l => matInc mm (s - 1) (l - 1)) m) := by
  induction ls generalizing m with
  | nil => exact h
  | cons l rest ih => exact ih (matNonneg_matInc h _ _)

/-- C2 (corrected): closed-form of `update_state` for the three variants on
an in-range `(problem, answer)` pair and a valid state.  The Luce-pseudocount
and Dirichlet-Categorical variants return a same-shape, non-negative state in
which exactly the cell `C[correct first][selected first]` is incremented by
one and every other cell is unchanged.  The Bradley-Terry variant instead
returns a same-shape, non-negative state in which, for each presented class
`l` other than the selected class, the cell `wins[selected first][l]` is
incremented once per occurrence of `l` among the presented classes — several
cells in general, and not the cell `C[correct][selected]`. -/
theorem C2_update_closed_form {n : ℕ} (lst : LuceState) (cst : ConfusionState)
    (bst : BradleyTerryState) (p : Problem) (a : Answer)
    (hl : matShape lst.counts n) (hcs : matShape cst.counts n)
    (hb : matShape bst.counts n)
    (hnl : matNonneg lst.counts) (hnc : matNonneg cst.counts)
    (hnb : matNonneg bst.counts)
    (hcor1 : 1 ≤ p.correct_sequence.getD 0 0) (hcorn : p.correct_sequence.getD 0 0 ≤ n)
    (hsel1 : 1 ≤ a.selected_sequence.getD 0 0) (hseln : a.selected_sequence.getD 0 0 ≤ n)
    (halt : ∀ alt ∈ p.alternatives, 1 ≤ alt.getD 0 0 ∧ alt.getD 0 0 ≤ n) :
    (∀ i j, i < n → j < n →
      (matGet (luce_update_state lst p a).1.counts i j
        = matGet lst.counts i j
          + (if i = p.correct_sequence.getD 0 0 - 1
                ∧ j = a.selected_sequence.getD 0 0 - 1 then 1 else 0))
      ∧ (matGet (confusion_update_state cst p a).1.counts i j
        = matGet cst.counts i j
          + (if i = p.correct_sequence.getD 0 0 - 1
                ∧ j = a.selected_sequence.getD 0 0 - 1 then 1 else 0))
      ∧ (matGet (bt_update_state bst p a).1.counts i j
        = matGet bst.counts i j
          + (if i = a.selected_sequence.getD 0 0 - 1 then
              ((((p.correct_sequence.getD 0 0 ::
                    p.alternatives.map (fun alt => alt.getD 0 0)).filter
                  (fun c => c ≠ a.selected_sequence.getD 0 0)).countP
                  (fun l => decide (l - 1 = j)) : ℕ) : ℚ)
             else 0)))
    ∧ matShape (luce_update_state lst p a).1.counts n
    ∧ matNonneg (luce_update_state lst p a).1.counts
    ∧ matShape (confusion_update_state cst p a).1.counts n
    ∧ matNonneg (confusion_update_state cst p a).1.counts
    ∧ matShape (bt_update_state bst p a).1.counts n
    ∧ matNonneg (bt_update_state bst p a).1.counts := by
  have hlc : (luce_update_state lst p a).1.counts
      = matInc lst.counts (p.correct_sequence.getD 0 0 - 1)
          (a.selected_sequence.getD 0 0 - 1) := rfl
  have hcc : (confusion_update_state cst p a).1.counts
      = matInc cst.counts (p.correct_sequence.getD 0 0 - 1)
          (a.selected_sequence.getD 0 0 - 1) := rfl
  have hbc : (bt_update_state bst p a).1.counts
      = ((p.correct_sequence.getD 0 0 ::
            p.alternatives.map (fun alt => alt.getD 0 0)).filter
          (fun c => c ≠ a.selected_sequence.getD 0 0)).foldl
          (fun mm l => matInc mm (a.selected_sequence.getD 0 0 - 1) (l - 1))
          bst.counts := rfl
  have hlosers : ∀ l ∈ (p.correct_sequence.getD 0 0 ::
        p.alternatives.map (fun alt => alt.getD 0 0)).filter
      (fun c => c ≠ a.selected_sequence.getD 0 0), l - 1 < n := by
    intro l hlmem
    have hl2 := List.mem_of_mem_filter hlmem
    rcases List.mem_cons.mp hl2 with h1 | h1
    · omega
    · rcases List.mem_map.mp h1 with ⟨alt, haltmem, rfl⟩
      have := halt alt haltmem
      omega
  refine ⟨?_, ?_, ?_, ?_, ?_, ?_, ?_⟩
  · intro i j hi hj
    refine ⟨?_, ?_, ?_⟩
    · rw [hlc, matGet_matInc hl _ _ _ _ (by omega) (by omega) hi]
      congr 1
      apply if_congr _ rfl rfl
      constructor <;> (intro hh; exact ⟨hh.1.symm, hh.2.symm⟩)
    · rw [hcc, matGet_matInc hcs _ _ _ _ (by omega) (by omega) hi]
      congr 1
      apply if_congr _ rfl rfl
      constructor <;> (intro hh; exact ⟨hh.1.symm, hh.2.symm⟩)
    · rw [hbc, matGet_foldl_matInc hb _ _ _ _ hi (by omega) hlosers]
  · rw [hlc]; exact matShape_matInc hl _ _
  · rw [hlc]; exact matNonneg_matInc hnl _ _
  · rw [hcc]; exact matShape_matInc hcs _ _
  · rw [hcc]; exact matNonneg_matInc hnc _ _
  · rw [hbc]; exact matShape_foldl_matInc hb _ _
  · rw [hbc]; exact matNonneg_foldl_matInc hnb _ _

theorem matShape_replicate (n : ℕ) :
    matShape (List.replicate n (List.replicate n (0 : ℚ))) n := by
  constructor
  · simp
  · intro row hrow
    simp [List.eq_of_mem_replicate hrow]

theorem matNonneg_replicate (n : ℕ) :
    matNonneg (List.replicate n (List.replicate n (0 : ℚ))) := by
  intro row hrow x hx
  rw [List.eq_of_mem_replicate hrow] at hx
  rw [List.eq_of_mem_replicate hx]

/-- C2 counterexample: for the Bradley-Terry variant, updating the all-zero
6×6 state with the in-range problem `(correct=[1], alts=[[2],[3]])` and the
correct answer `[1]` changes the two cells `wins[1][2]` and `wins[1][3]` and
leaves `C[1][1]` (the cell named by the claim) unchanged — so it is false
that exactly the one cell `C[correct][selected]` is incremented. -/
theorem C2_counterexample :
    ((Problem.mk "tone_1" 0 "" 0 [1] [[2], [3]]).correct_sequence.getD 0 0 = 1
      ∧ (Answer.mk [1] 1000).selected_sequence.getD 0 0 = 1)
    ∧ matGet (bt_update_state
        (BradleyTerryState.mk 6 (List.replicate 6 (List.replicate 6 0)) 1 2)
        (Problem.mk "tone_1" 0 "" 0 [1] [[2], [3]]) (Answer.mk [1] 1000)).1.counts 0 1
      = 1
    ∧ matGet (bt_update_state
        (BradleyTerryState.mk 6 (List.replicate 6 (List.replicate 6 0)) 1 2)
        (Problem.mk "tone_1" 0 "" 0 [1] [[2], [3]]) (Answer.mk [1] 1000)).1.counts 0 2
      = 1
    ∧ matGet (BradleyTerryState.mk 6 (List.replicate 6 (List.replicate 6 0)) 1 2).counts 0 1
      = 0
    ∧ matGet (BradleyTerryState.mk 6 (List.replicate 6 (List.replicate 6 0)) 1 2).counts 0 2
      = 0
    ∧ matGet (bt_update_state
        (BradleyTerryState.mk 6 (List.replicate 6 (List.replicate 6 0)) 1 2)
        (Problem.mk "tone_1" 0 "" 0 [1] [[2], [3]]) (Answer.mk [1] 1000)).1.counts 0 0
      = matGet (BradleyTerryState.mk 6 (List.replicate 6 (List.replicate 6 0)) 1 2).counts 0 0 := by
  refine ⟨⟨rfl, rfl⟩, ?_, ?_, ?_, ?_, ?_⟩ <;>
    norm_num [bt_update_state, BradleyTerryState.copy_with_pairwise_wins,
      matInc, matGet, List.filter, List.replicate, List.set, List.getD]

/-- Witness for `C2_update_closed_form` at the all-zero 6×6 states and the
in-range pair `(correct=[1], alts=[[2]])`, answer `[2]`. -/
theorem C2_witness :
    matShape (LuceState.mk 6 (List.replicate 6 (List.replicate 6 0)) 1).counts 6
    ∧ (∀ i j, i < 6 → j < 6 →
        matGet (luce_update_state
            (LuceState.mk 6 (List.replicate 6 (List.replicate 6 0)) 1)
            (Problem.mk "tone_1" 0 "" 0 [1] [[2]]) (Answer.mk [2] 1000)).1.counts i j
          = matGet (LuceState.mk 6 (List.replicate 6 (List.replicate 6 0)) 1).counts i j
            + (if i = (Problem.mk "tone_1" 0 "" 0 [1] [[2]]).correct_sequence.getD 0 0 - 1
                  ∧ j = (Answer.mk [2] 1000).selected_sequence.getD 0 0 - 1
               then 1 else 0)) := by
  have h := C2_update_closed_form (n := 6)
    (LuceState.mk 6 (List.replicate 6 (List.replicate 6 0)) 1)
    (ConfusionState.mk 6 (List.replicate 6 (List.replicate 6 0)))
    (BradleyTerryState.mk 6 (List.replicate 6 (List.replicate 6 0)) 1 2)
    (Problem.mk "tone_1" 0 "" 0 [1] [[2]]) (Answer.mk [2] 1000)
    (matShape_replicate 6) (matShape_replicate 6) (matShape_replicate 6)
    (matNonneg_replicate 6) (matNonneg_replicate 6) (matNonneg_replicate 6)
    (by decide) (by decide) (by decide) (by decide)
    (by intro alt halt; fin_cases halt <;> exact ⟨by decide, by decide⟩)
  exact ⟨matShape_replicate 6, fun i j hi hj => (h.1 i j hi hj).1⟩

/-- C7 counterexample: the Luce `update_state` does not reject an answer
whose selected sequence `[3]` is not among the presented choices of the
problem `(correct=[1], alts=[[2]])` (and has the right length); instead it
increments `C[1][3]`, changing the posterior counts. -/
theorem C7_counterexample :
    ((Answer.mk [3] 1000).selected_sequence
        ∉ (Problem.mk "tone_1" 0 "" 0 [1] [[2]]).all_choices)
    ∧ (Answer.mk [3] 1000).selected_sequence.length
        = (Problem.mk "tone_1" 0 "" 0 [1] [[2]]).correct_sequence.length
    ∧ matGet (luce_update_state
        (LuceState.mk 6 (List.replicate 6 (List.replicate 6 0)) 1)
        (Problem.mk "tone_1" 0 "" 0 [1] [[2]]) (Answer.mk [3] 1000)).1.counts 0 2
      = 1
    ∧ (luce_update_state
        (LuceState.mk 6 (List.replicate 6 (List.replicate 6 0)) 1)
        (Problem.mk "tone_1" 0 "" 0 [1] [[2]]) (Answer.mk [3] 1000)).1.counts
      ≠ (LuceState.mk 6 (List.replicate 6 (List.replicate 6 0)) 1).counts := by
  refine ⟨by decide, rfl, ?_, ?_⟩
  · norm_num [luce_update_state, LuceState.copy_with_increment,
      matInc, matGet, List.replicate, List.set, List.getD]
  · intro heq
    have h2 : matGet (luce_update_state
        (LuceState.mk 6 (List.replicate 6 (List.replicate 6 0)) 1)
        (Problem.mk "tone_1" 0 "" 0 [1] [[2]]) (Answer.mk [3] 1000)).1.counts 0 2
        = matGet (LuceState.mk 6 (List.replicate 6 (List.replicate 6 0)) 1).counts 0 2 := by
      rw [heq]
    rw [show matGet (LuceState.mk 6 (List.replicate 6 (List.replicate 6 0)) 1).counts 0 2
        = 0 by norm_num [matGet, List.replicate, List.getD]] at h2
    have h3 : matGet (luce_update_state
        (LuceState.mk 6 (List.replicate 6 (List.replicate 6 0)) 1)
        (Problem.mk "tone_1" 0 "" 0 [1] [[2]]) (Answer.mk [3] 1000)).1.counts 0 2
        = 1 := by
      norm_num [luce_update_state, LuceState.copy_with_increment,
        matInc, matGet, List.replicate, List.set, List.getD]
    rw [h3] at h2
    norm_num at h2

/-- C7 (corrected): the update routines perform no answer validation.  For
every state and every answer whose first-syllable class is merely in range —
including answers whose selected sequence is not among the presented choices
or whose length differs — the Luce and Dirichlet `update_state` increment
`C[correct first][selected first]` by one, so the posterior counts change;
no rejection is signalled anywhere in the update path. -/
theorem C7_update_accepts_any_answer {n : ℕ} (st : LuceState)
    (cst : ConfusionState) (p : Problem) (a : Answer)
    (hl : matShape st.counts n) (hc : matShape cst.counts n)
    (hcor1 : 1 ≤ p.correct_sequence.getD 0 0) (hcorn : p.correct_sequence.getD 0 0 ≤ n)
    (hsel1 : 1 ≤ a.selected_sequence.getD 0 0) (hseln : a.selected_sequence.getD 0 0 ≤ n) :
    matGet (luce_update_state st p a).1.counts
        (p.correct_sequence.getD 0 0 - 1) (a.selected_sequence.getD 0 0 - 1)
      = matGet st.counts
          (p.correct_sequence.getD 0 0 - 1) (a.selected_sequence.getD 0 0 - 1) + 1
    ∧ matGet (confusion_update_state cst p a).1.counts
        (p.correct_sequence.getD 0 0 - 1) (a.selected_sequence.getD 0 0 - 1)
      = matGet cst.counts
          (p.correct_sequence.getD 0 0 - 1) (a.selected_sequence.getD 0 0 - 1) + 1
    ∧ (luce_update_state st p a).1.counts ≠ st.counts
    ∧ (confusion_update_state cst p a).1.counts ≠ cst.counts := by
  have hlc : (luce_update_state st p a).1.counts
      = matInc st.counts (p.correct_sequence.getD 0 0 - 1)
          (a.selected_sequence.getD 0 0 - 1) := rfl
  have hcc : (confusion_update_state cst p a).1.counts
      = matInc cst.counts (p.correct_sequence.getD 0 0 - 1)
          (a.selected_sequence.getD 0 0 - 1) := rfl
  have h1 : matGet (luce_update_state st p a).1.counts
      (p.correct_sequence.getD 0 0 - 1) (a.selected_sequence.getD 0 0 - 1)
      = matGet st.counts
          (p.correct_sequence.getD 0 0 - 1) (a.selected_sequence.getD 0 0 - 1) + 1 := by
    rw [hlc, matGet_matInc hl _ _ _ _ (by omega) (by omega) (by omega)]
    simp
  have h2 : matGet (confusion_update_state cst p a).1.counts
      (p.correct_sequence.getD 0 0 - 1) (a.selected_sequence.getD 0 0 - 1)
      = matGet cst.counts
          (p.correct_sequence.getD 0 0 - 1) (a.selected_sequence.getD 0 0 - 1) + 1 := by
    rw [hcc, matGet_matInc hc _ _ _ _ (by omega) (by omega) (by omega)]
    simp
  refine ⟨h1, h2, ?_, ?_⟩
  · intro heq
    rw [heq] at h1
    linarith
  · intro heq
    rw [heq] at h2
    linarith

/-- Witness for `C7_update_accepts_any_answer` at the all-zero 6×6 states
with the invalid answer `[3]` to the problem `(correct=[1], alts=[[2]])`. -/
theorem C7_witness :
    matShape (LuceState.mk 6 (List.replicate 6 (List.replicate 6 0)) 1).counts 6
    ∧ (luce_update_state (LuceState.mk 6 (List.replicate 6 (List.replicate 6 0)) 1)
        (Problem.mk "tone_1" 0 "" 0 [1] [[2]]) (Answer.mk [3] 1000)).1.counts
      ≠ (LuceState.mk 6 (List.replicate 6 (List.replicate 6 0)) 1).counts := by
  exact ⟨matShape_replicate 6,
    (C7_update_accepts_any_answer (n := 6)
      (LuceState.mk 6 (List.replicate 6 (List.replicate 6 0)) 1)
      (ConfusionState.mk 6 (List.replicate 6 (List.replicate 6 0)))
      (Problem.mk "tone_1" 0 "" 0 [1] [[2]]) (Answer.mk [3] 1000)
      (matShape_replicate 6) (matShape_replicate 6)
      (by decide) (by decide) (by decide) (by decide)).2.2.1⟩

/-! ## C9: Bradley-Terry MM convergence -/

/-- C9 (confirmed): `compute_bt_strengths` performs at most `max_iter` MM
sweeps (its loop is literally bounded by the `max_iter` fuel), and on the
wins matrix `[[0,80],[20,0]]` with `prior = 0` it has converged after two
sweeps: for every `max_iter ≥ 2` it returns exactly `θ = [8/5, 2/5]`, whose
ratio satisfies `|θ₀/(θ₀+θ₁) − 0.80| = 0 ≤ 0.01`. -/
theorem C9_bt_convergence (M : ℕ) (hM : 2 ≤ M) :
    compute_bt_strengths [[0,80],[20,0]] 0 M (1/1000000) = [8/5, 2/5]
    ∧ |([8/5, 2/5] : List ℚ).getD 0 0
        / (([8/5, 2/5] : List ℚ).getD 0 0 + ([8/5, 2/5] : List ℚ).getD 1 0)
        - 8/10| ≤ 1/100 := by
  constructor
  · obtain ⟨m, rfl⟩ : ∃ m, M = m + 1 + 1 := ⟨M - 2, by omega⟩
    have hsetup : compute_bt_strengths [[0,80],[20,0]] 0 (m+1+1) (1/1000000)
        = btLoop [[0,80],[20,0]] [[0,100],[100,0]] 2 (1/1000000) (m+1+1) [1,1] := by
      unfold compute_bt_strengths
      norm_num [matGet, List.range_succ, List.getD, List.replicate]
    rw [hsetup]
    have hstep1 : btStep [[0,80],[20,0]] [[0,100],[100,0]] 2 [1,1] = [8/5, 2/5] := by
      norm_num [btStep, matGet, List.range_succ, List.getD]
    have hchange1 : ¬ (btMaxChange [8/5, 2/5] [1,1] 2 < 1/1000000) := by
      have h1 : |(8:ℚ)/5 - 1| = 3/5 := by rw [abs_of_pos] <;> norm_num
      have h2 : |(2:ℚ)/5 - 1| = 3/5 := by rw [abs_of_neg] <;> norm_num
      have h3 : |(3:ℚ)/5| = 3/5 := by rw [abs_of_pos] <;> norm_num
      norm_num [btMaxChange, List.range_succ, List.getD, h1, h2, h3]
    have hstep2 : btStep [[0,80],[20,0]] [[0,100],[100,0]] 2 [8/5, 2/5] = [8/5, 2/5] := by
      norm_num [btStep, matGet, List.range_succ, List.getD]
    have hchange2 : btMaxChange [8/5, 2/5] [8/5, 2/5] 2 < 1/1000000 := by
      norm_num [btMaxChange, List.range_succ, List.getD]
    rw [btLoop]
    simp only [hstep1, hchange1, if_false]
    rw [btLoop]
    simp only [hstep2, hchange2, if_true]
  · norm_num [List.getD]

/-- Witness for `C9_bt_convergence` at `max_iter = 100` (the default). -/
theorem C9_witness :
    (2 ≤ 100)
    ∧ compute_bt_strengths [[0,80],[20,0]] 0 100 (1/1000000) = [8/5, 2/5] := by
  exact ⟨by decide, (C9_bt_convergence 100 (by decide)).1⟩

/-! ## C6: structure of `all_pair_stats` -/

theorem list_sum_range (f : ℕ → ℕ) (n : ℕ) :
    ((List.range n).map f).sum = ∑ i ∈ Finset.range n, f i := by
  induction n with
  | zero => simp
  | succ m ih => rw [List.range_succ, List.map_append, List.sum_append,
      Finset.sum_range_succ, ih]; simp

theorem filter_range_length (n i : ℕ) :
    ((List.range n).filter (fun j => decide (i < j))).length = n - (i + 1) := by
  induction n with
  | zero => simp
  | succ m ih =>
    rw [List.range_succ, List.filter_append, List.length_append, ih]
    by_cases him : i < m
    · simp only [List.filter, him, decide_eq_true_eq]
      simp [him]
      omega
    · simp only [List.filter, him, decide_eq_true_eq]
      simp [him]
      omega

theorem pairList_mem (n a b : ℕ) :
    (a, b) ∈ pairList n ↔ 1 ≤ a ∧ a < b ∧ b ≤ n := by
  unfold pairList
  simp only [List.mem_flatMap, List.mem_map, List.mem_filter, List.mem_range,
    decide_eq_true_eq]
  constructor
  · rintro ⟨i, hi, j, ⟨⟨hj, hij⟩, heq⟩⟩
    injection heq with h1 h2
    omega
  · rintro ⟨h1, h2, h3⟩
    exact ⟨a - 1, by omega, b - 1, ⟨⟨by omega, by omega⟩, by
      rw [Prod.mk.injEq]; omega⟩⟩

theorem pairList_nodup (n : ℕ) : (pairList n).Nodup := by
  unfold pairList
  rw [List.nodup_flatMap]
  constructor
  · intro i _
    apply List.Nodup.map
    · intro x y hxy
      have h2 := congrArg Prod.snd hxy
      simp only at h2
      omega
    · exact List.Nodup.filter _ (List.nodup_range n)
  · apply List.Pairwise.imp_of_mem ?_ (List.pairwise_lt_range n)
    intro i j _ _ hij
    intro p hp hq
    simp only [Function.onFun, List.mem_map, List.mem_filter] at hp hq
    obtain ⟨x, _, rfl⟩ := hp
    obtain ⟨y, _, heq⟩ := hq
    injection heq with h1 h2
    omega

theorem pairList_length (n : ℕ) : (pairList n).length = n.choose 2 := by
  unfold pairList
  rw [List.length_flatMap]
  have hmap : (List.range n).map
      (List.length ∘ (fun i =>
        ((List.range n).filter (fun j => i < j)).map (fun j => (i + 1, j + 1))))
      = (List.range n).map (fun i => n - (i + 1)) := by
    apply List.map_congr_left
    intro i _
    simp only [Function.comp_apply, List.length_map]
    exact filter_range_length n i
  rw [hmap, list_sum_range]
  have hre : ∑ i ∈ Finset.range n, (n - (i + 1)) = ∑ i ∈ Finset.range n, (n - 1 - i) :=
    Finset.sum_congr rfl (fun i _ => by omega)
  rw [hre, Finset.sum_range_reflect (fun i => i) n, Finset.sum_range_id,
    Nat.choose_two_right]

/-- C6 (corrected/amended part): for every variant and every state, the keys
of `all_pair_stats` are exactly the unordered pairs `(a, b)` with
`1 ≤ a < b ≤ n`, each exactly once, `C(n,2)` in total; the
Dirichlet-Categorical and Bradley-Terry variants floor every returned `α`
and `β` at 0.1; the Luce variant applies no floor (see the
counterexample). -/
theorem C6_pair_stats_structure :
    (∀ n a b, ((a, b) ∈ pairList n ↔ 1 ≤ a ∧ a < b ∧ b ≤ n))
    ∧ (∀ n, (pairList n).Nodup)
    ∧ (∀ n, (pairList n).length = n.choose 2)
    ∧ (∀ ptid st, (luce_get_all_pair_stats ptid st).map (·.1)
        = pairList (n_classes_of ptid))
    ∧ (∀ ptid st, (confusion_get_all_pair_stats ptid st).map (·.1)
        = pairList (n_classes_of ptid))
    ∧ (∀ ptid st, (bt_get_all_pair_stats ptid st).map (·.1)
        = pairList st.n_classes)
    ∧ (∀ ptid st, (confusion_get_all_pair_stats ptid st).all
        (fun e => decide ((1:ℚ)/10 ≤ e.2.alpha) && decide ((1:ℚ)/10 ≤ e.2.beta)) = true)
    ∧ (∀ ptid st, (bt_get_all_pair_stats ptid st).all
        (fun e => decide ((1:ℚ)/10 ≤ e.2.alpha) && decide ((1:ℚ)/10 ≤ e.2.beta)) = true) := by
  refine ⟨pairList_mem, pairList_nodup, pairList_length, ?_, ?_, ?_, ?_, ?_⟩
  · intro ptid st
    unfold luce_get_all_pair_stats
    rw [List.map_map]
    exact (List.map_congr_left (fun a _ => rfl)).trans (List.map_id _)
  · intro ptid st
    unfold confusion_get_all_pair_stats
    rw [List.map_map]
    exact (List.map_congr_left (fun a _ => rfl)).trans (List.map_id _)
  · intro ptid st
    unfold bt_get_all_pair_stats
    rw [List.map_map]
    exact (List.map_congr_left (fun a _ => rfl)).trans (List.map_id _)
  · intro ptid st
    rw [List.all_eq_true]
    intro e he
    unfold confusion_get_all_pair_stats at he
    simp only [List.mem_map] at he
    obtain ⟨ij, _, rfl⟩ := he
    simp only [Bool.and_eq_true, decide_eq_true_eq]
    exact ⟨le_max_right _ _, le_max_right _ _⟩
  · intro ptid st
    rw [List.all_eq_true]
    intro e he
    unfold bt_get_all_pair_stats at he
    simp only [List.mem_map] at he
    obtain ⟨ij, _, rfl⟩ := he
    simp only [Bool.and_eq_true, decide_eq_true_eq]
    exact ⟨le_max_right _ _, le_max_right _ _⟩

/-- C6 counterexample: for the Luce variant with the valid 6×6 tone state
`counts[1][2] = counts[2][2] = 20` (all else 0, prior 1), the pair `(1,2)`
entry of `get_all_pair_stats` is `Beta(231/2321, 231/2321)` and
`231/2321 < 0.1` — no 0.1 floor is applied. -/
theorem C6_counterexample :
    ((luce_get_all_pair_stats "tone_1"
        (LuceState.mk 6 [[0,20,0,0,0,0],[0,20,0,0,0,0],[0,0,0,0,0,0],
          [0,0,0,0,0,0],[0,0,0,0,0,0],[0,0,0,0,0,0]] 1)).find?
        (fun e => e.1 = (1, 2)))
      = some ((1, 2), BetaParams.mk (231/2321) (231/2321))
    ∧ ((231:ℚ)/2321) < 1/10 := by
  constructor
  · simp only [luce_get_all_pair_stats, n_classes_of, get_problem_type,
      PROBLEM_TYPES, pairList, luce_get_success_distribution, synth2Problem,
      beta_mixture_approx, matGet]
    norm_num [List.range_succ, List.find?]
  · norm_num

/-! ## C5: difficulty tiering -/

/-- C5 (confirmed): for any model service and any single-syllable posterior
state, `_get_difficulty_level` returns "2-choice" iff some unordered pair's
`all_pair_stats` mean is below `PAIR_MASTERY` (0.80); it returns
"4-choice-multi" iff every pair mean is at least 0.80 and, for every
canonical four-class subset and every class in it, the predicted four-choice
success mean is at least `FOUR_CHOICE_MASTERY` (0.90); otherwise it returns
"mixed". -/
theorem C5_difficulty_tiers {σ : Type} (ml : MLService σ) (st : σ) :
    PAIR_MASTERY_THRESHOLD = 8/10
    ∧ FOUR_CHOICE_MASTERY_THRESHOLD = 9/10
    ∧ (get_difficulty_level ml st = "2-choice"
      ↔ ∃ e ∈ ml.get_all_pair_stats (make_problem_type_id "tone" 1) st,
          e.2.mean < PAIR_MASTERY_THRESHOLD)
    ∧ (get_difficulty_level ml st = "4-choice-multi"
      ↔ ((∀ e ∈ ml.get_all_pair_stats (make_problem_type_id "tone" 1) st,
            PAIR_MASTERY_THRESHOLD ≤ e.2.mean)
        ∧ (∀ s ∈ get_all_four_choice_sets, ∀ c ∈ s,
            FOUR_CHOICE_MASTERY_THRESHOLD ≤
              (ml.get_success_distribution
                (fourChoiceDummyProblem (make_problem_type_id "tone" 1) c s) st).mean)))
    ∧ (get_difficulty_level ml st = "mixed"
      ↔ ((∀ e ∈ ml.get_all_pair_stats (make_problem_type_id "tone" 1) st,
            PAIR_MASTERY_THRESHOLD ≤ e.2.mean)
        ∧ (∃ s ∈ get_all_four_choice_sets, ∃ c ∈ s,
            (ml.get_success_distribution
              (fourChoiceDummyProblem (make_problem_type_id "tone" 1) c s) st).mean
              < FOUR_CHOICE_MASTERY_THRESHOLD))) := by
  refine ⟨rfl, rfl, ?_⟩
  simp only [get_difficulty_level]
  split_ifs with h1 h2
  · simp only [List.any_eq_true, decide_eq_true_eq] at h1
    refine ⟨⟨fun _ => h1, fun _ => rfl⟩, ⟨fun hh => absurd hh (by decide), ?_⟩,
      ⟨fun hh => absurd hh (by decide), ?_⟩⟩
    · rintro ⟨hall, -⟩
      obtain ⟨e, he, hlt⟩ := h1
      exact absurd (hall e he) (not_le.mpr hlt)
    · rintro ⟨hall, -⟩
      obtain ⟨e, he, hlt⟩ := h1
      exact absurd (hall e he) (not_le.mpr hlt)
  · simp only [List.any_eq_true, decide_eq_true_eq, not_exists, not_and] at h1
    simp only [List.any_eq_true, decide_eq_true_eq] at h2
    have hall : ∀ e ∈ ml.get_all_pair_stats (make_problem_type_id "tone" 1) st,
        PAIR_MASTERY_THRESHOLD ≤ e.2.mean := by
      intro e he
      exact not_lt.mp (h1 e he)
    obtain ⟨s, hs, c, hc, hlt⟩ := h2
    refine ⟨⟨fun hh => absurd hh (by decide), ?_⟩,
      ⟨fun hh => absurd hh (by decide), ?_⟩, ⟨fun _ => ⟨hall, s, hs, c, hc, hlt⟩, fun _ => rfl⟩⟩
    · rintro ⟨e, he, hlt2⟩
      exact absurd (hall e he) (not_le.mpr hlt2)
    · rintro ⟨-, hall4⟩
      exact absurd (hall4 s hs c hc) (not_le.mpr hlt)
  · simp only [List.any_eq_true, decide_eq_true_eq, not_exists, not_and] at h1 h2
    have hall : ∀ e ∈ ml.get_all_pair_stats (make_problem_type_id "tone" 1) st,
        PAIR_MASTERY_THRESHOLD ≤ e.2.mean := fun e he => not_lt.mp (h1 e he)
    have hall4 : ∀ s ∈ get_all_four_choice_sets, ∀ c ∈ s,
        FOUR_CHOICE_MASTERY_THRESHOLD ≤
          (ml.get_success_distribution
            (fourChoiceDummyProblem (make_problem_type_id "tone" 1) c s) st).mean := by
      intro s hs c hc
      exact not_lt.mp (h2 s hs c hc)
    refine ⟨⟨fun hh => absurd hh (by decide), ?_⟩, ⟨fun _ => ⟨hall, hall4⟩, fun _ => rfl⟩,
      ⟨fun hh => absurd hh (by decide), ?_⟩⟩
    · rintro ⟨e, he, hlt⟩
      exact absurd (hall e he) (not_le.mpr hlt)
    · rintro ⟨-, s, hs, c, hc, hlt⟩
      exact absurd (hall4 s hs c hc) (not_le.mpr hlt)

/-! ## Helper lemmas: randomness -/

theorem pickOut_perm {α : Type} :
    ∀ (l : List α) (i : ℕ) (a : α) (rest : List α),
      pickOut l i = some (a, rest) → l.Perm (a :: rest)
  | [], i, a, rest => by simp [pickOut]
  | b :: t, 0, a, rest => by
    intro h
    simp only [pickOut, Option.some.injEq, Prod.mk.injEq] at h
    rw [h.1, h.2]
  | b :: t, i + 1, a, rest => by
    intro h
    simp only [pickOut, Option.map_eq_some'] at h
    obtain ⟨⟨a', rest'⟩, hpick, heq⟩ := h
    simp only [Prod.mk.injEq] at heq
    obtain ⟨rfl, rfl⟩ := heq
    have hperm := pickOut_perm t i a' rest' hpick
    exact (hperm.cons b).trans (List.Perm.swap a' b rest')

theorem rngShuffleAux_perm {α : Type} :
    ∀ (fuel : ℕ) (l : List α) (r : Rng), (rngShuffleAux fuel l r).1.Perm l
  | 0, l, r => List.Perm.refl l
  | fuel + 1, [], r => List.Perm.refl []
  | fuel + 1, a :: l, r => by
    simp only [rngShuffleAux]
    rcases hpick : pickOut (a :: l) ((rngIndex (a :: l).length r).1) with _ | ⟨b, rest⟩
    · exact List.Perm.refl _
    · have hperm := pickOut_perm _ _ _ _ hpick
      have htail := rngShuffleAux_perm fuel rest (rngIndex (a :: l).length r).2
      exact (htail.cons b).trans hperm.symm

theorem rngShuffle_perm {α : Type} (l : List α) (r : Rng) :
    (rngShuffle l r).1.Perm l :=
  rngShuffleAux_perm l.length l r

theorem rngShuffle_mem {α : Type} {l : List α} {x : α} (r : Rng) (h : x ∈ l) :
    x ∈ (rngShuffle l r).1 :=
  (rngShuffle_perm l r).mem_iff.mpr h

theorem rngShuffle_length {α : Type} (l : List α) (r : Rng) :
    (rngShuffle l r).1.length = l.length :=
  (rngShuffle_perm l r).length_eq

theorem rngChoice_mem {α : Type} (l : List α) (d : α) (r : Rng) (h : l ≠ []) :
    (rngChoice l d r).1 ∈ l := by
  unfold rngChoice rngIndex
  apply getD_mem
  exact Nat.mod_lt _ (by
    cases l with
    | nil => exact absurd rfl h
    | cons a t => simp)

theorem weightedWalk_bound (r : ℚ) :
    ∀ (ws : List ℚ) (i last : ℕ),
      weightedWalk r ws i last = last ∨ weightedWalk r ws i last < i + ws.length := by
  intro ws
  induction ws generalizing r with
  | nil => intro i last; left; rfl
  | cons w t ih =>
    intro i last
    simp only [weightedWalk]
    by_cases hc : r - w ≤ 0
    · rw [if_pos hc]
      right
      simp
    · rw [if_neg hc]
      rcases ih (r - w) (i + 1) last with h | h
      · left; exact h
      · right
        simp only [List.length_cons]
        omega

theorem weighted_sample_lt (ws : List ℚ) (r : Rng) (h : ws ≠ []) :
    (weighted_sample ws r).1 < ws.length := by
  have hlen : 0 < ws.length := by
    cases ws with
    | nil => exact absurd rfl h
    | cons a t => simp
  unfold weighted_sample
  by_cases hz : ws.sum = 0
  · rw [if_pos hz]
    exact Nat.mod_lt _ hlen
  · rw [if_neg hz]
    simp only
    rcases weightedWalk_bound ((rngNext r).1 * ws.sum) ws 0 (ws.length - 1) with hh | hh
    · rw [hh]; omega
    · omega

theorem first_class_with_words_mem (widx : WordIndex) :
    ∀ (cs : List ℕ) (c : ℕ) (ws : List Word),
      first_class_with_words widx cs = some (c, ws) → c ∈ cs ∧ ws ≠ []
  | [], c, ws => by simp [first_class_with_words]
  | x :: rest, c, ws => by
    intro h
    simp only [first_class_with_words] at h
    by_cases he : (lookupWords widx [x]).isEmpty
    · rw [if_pos he] at h
      have := first_class_with_words_mem widx rest c ws h
      exact ⟨List.mem_cons_of_mem x this.1, this.2⟩
    · rw [if_neg he] at h
      simp only [Option.some.injEq, Prod.mk.injEq] at h
      refine ⟨h.1 ▸ List.mem_cons_self x rest, ?_⟩
      rw [← h.2]
      intro hnil
      rw [hnil] at he
      exact he rfl

/-! ## Helper lemmas: distractor generation -/

theorem generate_distractors_loop_mem (correct : List ℕ) :
    ∀ (fuel : ℕ) (ds : List (List ℕ)) (r : Rng) (x : List ℕ), x ∈ ds →
      x ∈ (generate_distractors_loop correct fuel ds r).1
  | 0, ds, r, x => fun h => h
  | fuel + 1, ds, r, x => by
    intro h
    simp only [generate_distractors_loop]
    by_cases h4 : 4 ≤ ds.length
    · rw [if_pos h4]; exact h
    · rw [if_neg h4]
      show x ∈ (generate_distractors_loop correct fuel
        (if (gen_seq_attempt correct r).1 ≠ correct ∧ (gen_seq_attempt correct r).1 ∉ ds
         then ds ++ [(gen_seq_attempt correct r).1] else ds) (gen_seq_attempt correct r).2).1
      apply generate_distractors_loop_mem correct fuel
      split
      · exact List.mem_append_left _ h
      · exact h

theorem generate_distractors_loop_len (correct : List ℕ) :
    ∀ (fuel : ℕ) (ds : List (List ℕ)) (r : Rng),
      ds.length ≤ (generate_distractors_loop correct fuel ds r).1.length
  | 0, ds, r => le_refl _
  | fuel + 1, ds, r => by
    simp only [generate_distractors_loop]
    by_cases h4 : 4 ≤ ds.length
    · rw [if_pos h4]
    · rw [if_neg h4]
      show ds.length ≤ (generate_distractors_loop correct fuel
        (if (gen_seq_attempt correct r).1 ≠ correct ∧ (gen_seq_attempt correct r).1 ∉ ds
         then ds ++ [(gen_seq_attempt correct r).1] else ds) (gen_seq_attempt correct r).2).1.length
      refine le_trans ?_ (generate_distractors_loop_len correct fuel _ _)
      split
      · simp
      · exact le_refl _

theorem fill_distractors_mem (correct : List ℕ) :
    ∀ (fuel : ℕ) (ds : List (List ℕ)) (x : List ℕ), x ∈ ds →
      x ∈ fill_distractors correct fuel ds
  | 0, ds, x => fun h => h
  | fuel + 1, ds, x => by
    intro h
    simp only [fill_distractors]
    by_cases h4 : 4 ≤ ds.length
    · rw [if_pos h4]; exact h
    · rw [if_neg h4]
      apply fill_distractors_mem correct fuel
      split
      · exact List.mem_append_left _ h
      · exact List.mem_append_left _ h

theorem fill_distractors_len (correct : List ℕ) :
    ∀ (fuel : ℕ) (ds : List (List ℕ)),
      min 4 (ds.length + fuel) ≤ (fill_distractors correct fuel ds).length
  | 0, ds => by simp only [fill_distractors]; omega
  | fuel + 1, ds => by
    simp only [fill_distractors]
    by_cases h4 : 4 ≤ ds.length
    · rw [if_pos h4]; omega
    · rw [if_neg h4]
      have hrec := fun ds' => fill_distractors_len correct fuel ds'
      split
      · have := hrec (ds ++ [correct.map (fun c => c % N_TONES + 1)])
        simp only [List.length_append, List.length_cons, List.length_nil] at this
        omega
      · have := hrec (ds ++ [(List.range correct.length).map (fun i => i % N_TONES + 1)])
        simp only [List.length_append, List.length_cons, List.length_nil] at this
        omega

theorem generate_distractors_mem (correct : List ℕ) (r : Rng) :
    correct ∈ (generate_distractors correct r).1 := by
  unfold generate_distractors
  apply rngShuffle_mem
  apply fill_distractors_mem
  apply generate_distractors_loop_mem
  exact List.mem_singleton_self correct

theorem generate_distractors_len (correct : List ℕ) (r : Rng) :
    4 ≤ (generate_distractors correct r).1.length := by
  unfold generate_distractors
  rw [rngShuffle_length]
  have h1 : 1 ≤ (generate_distractors_loop correct 50 [correct] r).1.length := by
    have := generate_distractors_loop_len correct 50 [correct] r
    simpa using this
  have h2 := fill_distractors_len correct 4 (generate_distractors_loop correct 50 [correct] r).1
  omega

/-! ## Helper lemmas: the drill samplers always present the correct answer -/

theorem sample_2_choice_finish_spec (ptid : String) (widx : WordIndex)
    (sp : ℕ × ℕ) (fc : ℕ) (r : Rng) (p : Problem) (r' : Rng)
    (hfc : fc = sp.1 ∨ fc = sp.2)
    (h : sample_2_choice_finish ptid widx sp fc r = (some p, r')) :
    p.correct_sequence ∈ p.alternatives ∧ p.alternatives.length = 2 := by
  unfold sample_2_choice_finish at h
  simp only at h
  by_cases h0 : (lookupWords widx [fc]).isEmpty
  · rw [if_pos h0] at h
    by_cases h1 : (lookupWords widx
        [if fc = sp.1 then sp.2 else sp.1]).isEmpty
    · rw [if_pos h1] at h
      simp only [h1, if_pos] at h
      simp at h
    · rw [if_neg h1] at h
      simp only [h1] at h
      rw [if_neg (by simpa using h1)] at h
      simp only [Prod.mk.injEq, Option.some.injEq] at h
      obtain ⟨rfl, -⟩ := h
      refine ⟨?_, rfl⟩
      simp only [List.mem_cons]
      by_cases hff : fc = sp.1
      · rw [if_pos hff]; right; left; rfl
      · rw [if_neg hff]; left; rfl
  · rw [if_neg h0] at h
    rw [if_neg (by simpa using h0)] at h
    simp only [Prod.mk.injEq, Option.some.injEq] at h
    obtain ⟨rfl, -⟩ := h
    refine ⟨?_, rfl⟩
    simp only [List.mem_cons]
    rcases hfc with h | h
    · left; rw [h]
    · right; left; rw [h]

theorem sample_2_choice_spec {σ : Type} (ml : MLService σ) (widx : WordIndex)
    (states : StatesMap σ) (r : Rng) (p : Problem) (r' : Rng)
    (h : sample_2_choice ml widx states r = (some p, r')) :
    p.correct_sequence ∈ p.alternatives ∧ p.alternatives.length = 2 := by
  unfold sample_2_choice at h
  exact sample_2_choice_finish_spec _ _ _ _ _ _ _ (ite_eq_or_eq _ _ _) h

theorem sample_4_choice_finish_spec (ptid : String) (widx : WordIndex)
    (selected_set : List ℕ) (r : Rng) (p : Problem) (r' : Rng)
    (h : sample_4_choice_finish ptid widx selected_set r = (some p, r')) :
    p.correct_sequence ∈ p.alternatives
      ∧ p.alternatives.length = selected_set.length := by
  unfold sample_4_choice_finish at h
  rcases hfw : first_class_with_words widx selected_set with _ | ⟨cls, ws⟩
  · rw [hfw] at h
    simp at h
  · rw [hfw] at h
    simp only [Prod.mk.injEq, Option.some.injEq] at h
    obtain ⟨rfl, -⟩ := h
    have hmem := (first_class_with_words_mem widx selected_set cls ws hfw).1
    refine ⟨?_, by simp⟩
    simp only [List.mem_map]
    exact ⟨cls, hmem, rfl⟩

theorem sample_4_choice_error_probs_ne {σ : Type} (ml : MLService σ)
    (states : StatesMap σ) : sample_4_choice_error_probs ml states ≠ [] := by
  unfold sample_4_choice_error_probs
  intro hnil
  exact (by decide : get_all_four_choice_sets ≠ []) (List.map_eq_nil_iff.mp hnil)

theorem sample_4_choice_error_probs_len {σ : Type} (ml : MLService σ)
    (states : StatesMap σ) :
    (sample_4_choice_error_probs ml states).length = get_all_four_choice_sets.length := by
  unfold sample_4_choice_error_probs
  rw [List.length_map]

theorem sample_4_choice_spec {σ : Type} (ml : MLService σ) (widx : WordIndex)
    (states : StatesMap σ) (r : Rng) (p : Problem) (r' : Rng)
    (h : sample_4_choice ml widx states r = (some p, r')) :
    p.correct_sequence ∈ p.alternatives ∧ p.alternatives.length = 4 := by
  unfold sample_4_choice at h
  simp only at h
  rcases hw : weighted_sample (sample_4_choice_error_probs ml states) r with ⟨idx, r1⟩
  rw [hw] at h
  rcases hs : rngShuffle (get_all_four_choice_sets.getD idx []) r1 with ⟨selected_set, r2⟩
  rw [hs] at h
  simp only at h
  have h2 := sample_4_choice_finish_spec _ _ _ _ _ _ h
  refine ⟨h2.1, ?_⟩
  have hlen : selected_set.length = (get_all_four_choice_sets.getD idx []).length := by
    have h3 := congrArg Prod.fst hs
    simp only at h3
    rw [← h3, rngShuffle_length]
  have hidx : idx < get_all_four_choice_sets.length := by
    have h3 := congrArg Prod.fst hw
    simp only at h3
    have h4 := weighted_sample_lt (sample_4_choice_error_probs ml states) r
      (sample_4_choice_error_probs_ne ml states)
    rw [h3] at h4
    rw [sample_4_choice_error_probs_len ml states] at h4
    exact h4
  have hmem := getD_mem get_all_four_choice_sets idx ([] : List ℕ) hidx
  rw [h2.2, hlen]
  exact (by decide : ∀ s ∈ get_all_four_choice_sets, s.length = 4) _ hmem

theorem sample_2_choice_multi_finish_spec (ptid : String) (widx : WordIndex)
    (key : List ℕ) (r : Rng) (p : Problem) (r' : Rng)
    (h : sample_2_choice_multi_finish ptid widx key r = (some p, r')) :
    p.correct_sequence ∈ p.alternatives ∧ p.alternatives.length = 2 := by
  unfold sample_2_choice_multi_finish at h
  by_cases h0 : (lookupWords widx key).isEmpty
  · rw [if_pos h0] at h
    simp at h
  · rw [if_neg h0] at h
    simp only [Prod.mk.injEq, Option.some.injEq] at h
    obtain ⟨rfl, -⟩ := h
    constructor
    · exact rngShuffle_mem _ (List.mem_cons_self _ _)
    · rw [rngShuffle_length]
      rfl

theorem sample_2_choice_multi_syllable_spec {σ : Type} (ml : MLService σ)
    (widx : WordIndex) (states : StatesMap σ) (r : Rng) (p : Problem) (r' : Rng)
    (h : sample_2_choice_multi_syllable ml widx states r = (some p, r')) :
    p.correct_sequence ∈ p.alternatives ∧ p.alternatives.length = 2 := by
  unfold sample_2_choice_multi_syllable at h
  by_cases h0 : (two_syllable_keys widx).isEmpty
  · rw [if_pos h0] at h
    simp at h
  · rw [if_neg h0] at h
    exact sample_2_choice_multi_finish_spec _ _ _ _ _ _ h

theorem sample_4_choice_multi_finish_spec (ptid : String) (widx : WordIndex)
    (key : List ℕ) (r : Rng) (p : Problem) (r' : Rng)
    (h : sample_4_choice_multi_finish ptid widx key r = (some p, r')) :
    p.correct_sequence ∈ p.alternatives ∧ 4 ≤ p.alternatives.length := by
  unfold sample_4_choice_multi_finish at h
  by_cases h0 : (lookupWords widx key).isEmpty
  · rw [if_pos h0] at h
    simp at h
  · rw [if_neg h0] at h
    simp only [Prod.mk.injEq, Option.some.injEq] at h
    obtain ⟨rfl, -⟩ := h
    exact ⟨generate_distractors_mem _ _, generate_distractors_len _ _⟩

theorem sample_4_choice_multi_syllable_spec {σ : Type} (ml : MLService σ)
    (widx : WordIndex) (states : StatesMap σ) (r : Rng) (p : Problem) (r' : Rng)
    (h : sample_4_choice_multi_syllable ml widx states r = (some p, r')) :
    p.correct_sequence ∈ p.alternatives ∧ 4 ≤ p.alternatives.length := by
  unfold sample_4_choice_multi_syllable at h
  by_cases h0 : (two_syllable_keys widx).isEmpty
  · rw [if_pos h0] at h
    simp at h
  · rw [if_neg h0] at h
    exact sample_4_choice_multi_finish_spec _ _ _ _ _ _ h

theorem sample_fallback_spec :
    ∀ (widx : WordIndex) (r : Rng),
      (sample_fallback widx r).1.correct_sequence
          ∈ (sample_fallback widx r).1.alternatives
        ∧ 2 ≤ (sample_fallback widx r).1.alternatives.length
  | [], r => by
    show canonical_problem.correct_sequence ∈ canonical_problem.alternatives
      ∧ 2 ≤ canonical_problem.alternatives.length
    exact ⟨by decide, by decide⟩
  | (key, ws) :: rest, r => by
    show (sample_fallback_loop ((key, ws) :: rest) r).1.correct_sequence
        ∈ (sample_fallback_loop ((key, ws) :: rest) r).1.alternatives
      ∧ 2 ≤ (sample_fallback_loop ((key, ws) :: rest) r).1.alternatives.length
    simp only [sample_fallback_loop]
    by_cases h0 : ws.isEmpty
    · rw [if_pos h0]
      exact sample_fallback_spec rest r
    · rw [if_neg h0]
      refine ⟨generate_distractors_mem _ _, ?_⟩
      have := generate_distractors_len key (rngChoice ws defaultWord r).2
      simp only
      omega

theorem sample_problem_preview_spec {σ : Type} (ml : MLService σ) (widx : WordIndex)
    (states : StatesMap σ) (difficulty : String) (r : Rng) (p : Problem) (r' : Rng)
    (h : sample_problem_preview ml widx states difficulty r = (some p, r')) :
    p.correct_sequence ∈ p.alternatives ∧ 2 ≤ p.alternatives.length := by
  unfold sample_problem_preview at h
  simp only at h
  split_ifs at h with h1 h2 h3
  · have := sample_4_choice_spec _ _ _ _ _ _ h
    exact ⟨this.1, by omega⟩
  · have := sample_2_choice_multi_syllable_spec _ _ _ _ _ _ h
    exact ⟨this.1, by omega⟩
  · have := sample_4_choice_multi_syllable_spec _ _ _ _ _ _ h
    exact ⟨this.1, by omega⟩
  · simp at h

theorem sample_problem_main_spec {σ : Type} (ml : MLService σ) (widx : WordIndex)
    (states : StatesMap σ) (difficulty : String) (r : Rng) (p : Problem) (r' : Rng)
    (h : sample_problem_main ml widx states difficulty r = (some p, r')) :
    p.correct_sequence ∈ p.alternatives ∧ 2 ≤ p.alternatives.length := by
  unfold sample_problem_main at h
  simp only at h
  split_ifs at h with h1 h2 h3
  · have := sample_2_choice_spec _ _ _ _ _ _ h
    exact ⟨this.1, by omega⟩
  · have := sample_4_choice_spec _ _ _ _ _ _ h
    exact ⟨this.1, by omega⟩
  · have := sample_2_choice_multi_syllable_spec _ _ _ _ _ _ h
    exact ⟨this.1, by omega⟩
  · have := sample_4_choice_multi_syllable_spec _ _ _ _ _ _ h
    exact ⟨this.1, by omega⟩

theorem sample_problem_rest_spec {σ : Type} (ml : MLService σ) (widx : WordIndex)
    (states : StatesMap σ) (difficulty : String) (r : Rng) :
    (sample_problem_rest ml widx states difficulty r).1.correct_sequence
        ∈ (sample_problem_rest ml widx states difficulty r).1.alternatives
      ∧ 2 ≤ (sample_problem_rest ml widx states difficulty r).1.alternatives.length := by
  unfold sample_problem_rest
  simp only
  rcases hm : sample_problem_main ml widx states difficulty r with ⟨om, r2⟩
  cases om with
  | some p =>
    simp only
    exact sample_problem_main_spec _ _ _ _ _ _ _ hm
  | none =>
    simp only
    exact sample_fallback_spec widx r2

theorem sample_problem_spec {σ : Type} (ml : MLService σ) (widx : WordIndex)
    (states : StatesMap σ) (difficulty : String) (r : Rng) :
    (sample_problem ml widx states difficulty r).1.correct_sequence
        ∈ (sample_problem ml widx states difficulty r).1.alternatives
      ∧ 2 ≤ (sample_problem ml widx states difficulty r).1.alternatives.length := by
  unfold sample_problem
  simp only
  by_cases hb : (rngBernoulli PREVIEW_PROBABILITY r).1
  · rw [if_pos hb]
    rcases hpre : sample_problem_preview ml widx states difficulty
        (rngBernoulli PREVIEW_PROBABILITY r).2 with ⟨op, r1⟩
    cases op with
    | some p =>
      simp only
      exact sample_problem_preview_spec _ _ _ _ _ _ _ hpre
    | none =>
      simp only
      exact sample_problem_rest_spec _ _ _ _ _
  · rw [if_neg hb]
    simp only
    exact sample_problem_rest_spec _ _ _ _ _

/-! ## Helper lemmas: behaviour on the empty word catalog -/

theorem lookupWords_nil (k : List ℕ) : lookupWords [] k = [] := rfl

theorem first_class_with_words_nil :
    ∀ cs : List ℕ, first_class_with_words [] cs = none
  | [] => rfl
  | c :: rest => by
    simp only [first_class_with_words, lookupWords_nil]
    exact first_class_with_words_nil rest

theorem sample_2_choice_nil {σ : Type} (ml : MLService σ) (states : StatesMap σ)
    (r : Rng) : (sample_2_choice ml [] states r).1 = none := rfl

theorem sample_4_choice_finish_nil (ptid : String) (set : List ℕ) (r : Rng) :
    sample_4_choice_finish ptid [] set r = (none, r) := by
  unfold sample_4_choice_finish
  rw [first_class_with_words_nil]

theorem sample_4_choice_nil {σ : Type} (ml : MLService σ) (states : StatesMap σ)
    (r : Rng) : (sample_4_choice ml [] states r).1 = none := by
  unfold sample_4_choice
  simp only
  rcases hw : weighted_sample (sample_4_choice_error_probs ml states) r with ⟨idx, r1⟩
  rw [sample_4_choice_finish_nil]

theorem sample_2_choice_multi_syllable_nil {σ : Type} (ml : MLService σ)
    (states : StatesMap σ) (r : Rng) :
    (sample_2_choice_multi_syllable ml [] states r).1 = none := rfl

theorem sample_4_choice_multi_syllable_nil {σ : Type} (ml : MLService σ)
    (states : StatesMap σ) (r : Rng) :
    (sample_4_choice_multi_syllable ml [] states r).1 = none := rfl

theorem sample_fallback_nil (r : Rng) :
    sample_fallback [] r = (canonical_problem, r) := rfl

theorem sample_problem_preview_nil {σ : Type} (ml : MLService σ)
    (states : StatesMap σ) (difficulty : String) (r : Rng) :
    (sample_problem_preview ml [] states difficulty r).1 = none := by
  unfold sample_problem_preview
  simp only
  split_ifs with h1 h2 h3
  · exact sample_4_choice_nil ml states _
  · exact sample_2_choice_multi_syllable_nil ml states _
  · exact sample_4_choice_multi_syllable_nil ml states _
  · rfl

theorem sample_problem_main_nil {σ : Type} (ml : MLService σ)
    (states : StatesMap σ) (difficulty : String) (r : Rng) :
    (sample_problem_main ml [] states difficulty r).1 = none := by
  unfold sample_problem_main
  simp only
  split_ifs with h1 h2 h3
  · exact sample_2_choice_nil ml states _
  · exact sample_4_choice_nil ml states _
  · exact sample_2_choice_multi_syllable_nil ml states _
  · exact sample_4_choice_multi_syllable_nil ml states _

theorem sample_problem_rest_nil {σ : Type} (ml : MLService σ)
    (states : StatesMap σ) (difficulty : String) (r : Rng) :
    (sample_problem_rest ml [] states difficulty r).1 = canonical_problem := by
  unfold sample_problem_rest
  simp only
  rcases hm : sample_problem_main ml [] states difficulty r with ⟨om, r2⟩
  have hnone : om = none := by
    have := sample_problem_main_nil ml states difficulty r
    rw [hm] at this
    exact this
  subst hnone
  simp only
  rw [sample_fallback_nil]

theorem sample_problem_nil {σ : Type} (ml : MLService σ)
    (states : StatesMap σ) (difficulty : String) (r : Rng) :
    (sample_problem ml [] states difficulty r).1 = canonical_problem := by
  unfold sample_problem
  simp only
  by_cases hb : (rngBernoulli PREVIEW_PROBABILITY r).1
  · rw [if_pos hb]
    rcases hpre : sample_problem_preview ml [] states difficulty
        (rngBernoulli PREVIEW_PROBABILITY r).2 with ⟨op, r1⟩
    have hnone : op = none := by
      have := sample_problem_preview_nil ml states difficulty
        (rngBernoulli PREVIEW_PROBABILITY r).2
      rw [hpre] at this
      exact this
    subst hnone
    simp only
    exact sample_problem_rest_nil ml states difficulty r1
  · rw [if_neg hb]
    simp only
    exact sample_problem_rest_nil ml states difficulty _

/-! ## Helper lemmas: the lesson samplers always present the correct answer -/

theorem sample_2_choice_themed_finish_spec (widx : WordIndex) (pair : ℕ × ℕ)
    (fc : ℕ) (r : Rng) (hfc : fc = pair.1 ∨ fc = pair.2) :
    (sample_2_choice_themed_finish widx pair fc r).1.correct_sequence
        ∈ (sample_2_choice_themed_finish widx pair fc r).1.alternatives
      ∧ 2 ≤ (sample_2_choice_themed_finish widx pair fc r).1.alternatives.length := by
  unfold sample_2_choice_themed_finish
  simp only
  by_cases h0 : (lookupWords widx [fc]).isEmpty
  · rw [if_pos h0]
    by_cases h1 : (lookupWords widx [if fc = pair.1 then pair.2 else pair.1]).isEmpty
    · rw [if_pos (by simpa using h1)]
      exact sample_fallback_spec widx r
    · rw [if_neg (by simpa using h1)]
      simp only
      refine ⟨?_, by simp⟩
      simp only [List.mem_cons]
      by_cases hff : fc = pair.1
      · rw [if_pos hff]; right; left; rfl
      · rw [if_neg hff]; left; rfl
  · rw [if_neg h0]
    rw [if_neg (by simpa using h0)]
    simp only
    refine ⟨?_, by simp⟩
    simp only [List.mem_cons]
    rcases hfc with h | h
    · left; rw [h]
    · right; left; rw [h]

theorem sample_2_choice_themed_spec (widx : WordIndex)
    (theme_pairs : List (ℕ × ℕ)) (r : Rng) :
    (sample_2_choice_themed widx theme_pairs r).1.correct_sequence
        ∈ (sample_2_choice_themed widx theme_pairs r).1.alternatives
      ∧ 2 ≤ (sample_2_choice_themed widx theme_pairs r).1.alternatives.length := by
  unfold sample_2_choice_themed
  exact sample_2_choice_themed_finish_spec _ _ _ _ (ite_eq_or_eq _ _ _)

theorem sample_4_choice_themed_finish_spec (widx : WordIndex)
    (four_set : List ℕ) (c0 : ℕ) (r : Rng) (hc0 : c0 ∈ four_set)
    (hlen : 2 ≤ four_set.length) :
    (sample_4_choice_themed_finish widx four_set c0 r).1.correct_sequence
        ∈ (sample_4_choice_themed_finish widx four_set c0 r).1.alternatives
      ∧ 2 ≤ (sample_4_choice_themed_finish widx four_set c0 r).1.alternatives.length := by
  unfold sample_4_choice_themed_finish
  simp only
  by_cases h0 : (lookupWords widx [c0]).isEmpty
  · rw [if_pos h0]
    rcases hfw : first_class_with_words widx four_set with _ | ⟨cls, ws⟩
    · exact sample_fallback_spec widx r
    · simp only
      constructor
      · simp only [List.mem_map]
        exact ⟨cls, (first_class_with_words_mem widx four_set cls ws hfw).1, rfl⟩
      · simpa using hlen
  · rw [if_neg h0]
    simp only
    constructor
    · simp only [List.mem_map]
      exact ⟨c0, hc0, rfl⟩
    · simpa using hlen

theorem sample_4_choice_themed_spec (widx : WordIndex)
    (theme_pairs : List (ℕ × ℕ)) (r : Rng) :
    (sample_4_choice_themed widx theme_pairs r).1.correct_sequence
        ∈ (sample_4_choice_themed widx theme_pairs r).1.alternatives
      ∧ 2 ≤ (sample_4_choice_themed widx theme_pairs r).1.alternatives.length := by
  unfold sample_4_choice_themed
  simp only
  rcases hp : rngChoice theme_pairs (0, 0) r with ⟨pair, r1⟩
  rcases hrem : rngShuffle
    (((List.range N_TONES).map (· + 1)).filter
      (fun t => t ≠ pair.1 ∧ t ≠ pair.2)) r1 with ⟨remaining2, r2⟩
  rcases hfs : rngShuffle (pair.1 :: pair.2 :: remaining2.take 2) r2 with ⟨four_set, r3⟩
  rcases hc : rngChoice four_set 0 r3 with ⟨c0, r4⟩
  have hlen : 2 ≤ four_set.length := by
    have h1 := congrArg Prod.fst hfs
    simp only at h1
    rw [← h1, rngShuffle_length]
    simp
  apply sample_4_choice_themed_finish_spec
  · have h1 := congrArg Prod.fst hc
    simp only at h1
    have hne : four_set ≠ [] := by
      intro hnil
      rw [hnil] at hlen
      simp at hlen
    have h2 := rngChoice_mem four_set 0 r3 hne
    rw [h1] at h2
    exact h2
  · exact hlen

theorem sample_2syl_themed_finish_spec (wk : Word × List ℕ) (r : Rng) :
    (sample_2syl_themed_finish wk r).1.correct_sequence
        ∈ (sample_2syl_themed_finish wk r).1.alternatives
      ∧ 2 ≤ (sample_2syl_themed_finish wk r).1.alternatives.length := by
  unfold sample_2syl_themed_finish
  constructor
  · exact rngShuffle_mem _ (List.mem_cons_self _ _)
  · rw [rngShuffle_length]
    rfl

theorem sample_2_choice_2syl_themed_spec {σ : Type} (ml : MLService σ)
    (widx : WordIndex) (theme_pairs : List (ℕ × ℕ)) (states : StatesMap σ) (r : Rng) :
    (sample_2_choice_2syl_themed ml widx theme_pairs states r).1.correct_sequence
        ∈ (sample_2_choice_2syl_themed ml widx theme_pairs states r).1.alternatives
      ∧ 2 ≤ (sample_2_choice_2syl_themed ml widx theme_pairs states r).1.alternatives.length := by
  unfold sample_2_choice_2syl_themed
  simp only
  by_cases h0 : (themed_2syl_candidates widx theme_pairs).isEmpty
  · rw [if_pos h0]
    rcases hm : sample_2_choice_multi_syllable ml widx states r with ⟨om, r1⟩
    cases om with
    | some p =>
      simp only
      have := sample_2_choice_multi_syllable_spec _ _ _ _ _ _ hm
      exact ⟨this.1, by omega⟩
    | none =>
      simp only
      exact sample_fallback_spec widx r1
  · rw [if_neg h0]
    exact sample_2syl_themed_finish_spec _ _

/-! ## C4: the drill endpoint always returns a usable problem -/

/-- C4 (confirmed): for every word index, every states map, every difficulty
string and every random draw sequence, `_sample_problem` (a total function in
this embedding, so it cannot raise) returns a problem whose correct sequence
is among the presented alternatives and which presents at least two choices;
on the empty word catalog it returns exactly the canonical fallback problem
`(word_id=0, "xin chào", correct=[1], alternatives=[[1],[2]])`. -/
theorem C4_next_drill_safe {σ : Type} (ml : MLService σ) (widx : WordIndex)
    (states : StatesMap σ) (difficulty : String) (r : Rng) :
    ((sample_problem ml widx states difficulty r).1.correct_sequence
        ∈ (sample_problem ml widx states difficulty r).1.alternatives
      ∧ 2 ≤ (sample_problem ml widx states difficulty r).1.alternatives.length)
    ∧ (sample_problem ml ([] : WordIndex) states difficulty r).1 = canonical_problem :=
  ⟨sample_problem_spec ml widx states difficulty r,
   sample_problem_nil ml states difficulty r⟩

/-! ## C10: every produced problem lists its own correct sequence -/

/-- C10 (confirmed): every problem produced by the drill sampler
(`_sample_2_choice`, `_sample_4_choice`, the two multi-syllable samplers,
`_sample_problem`, `_sample_fallback`) and by the lesson samplers
(`_sample_2_choice_themed`, `_sample_4_choice_themed`,
`_sample_2_choice_2syl_themed`) contains its own correct sequence as an
element of its `alternatives` list — even though `Problem.n_choices` is
defined as `len(alternatives) + 1`, which counts the correct choice twice. -/
theorem C10_correct_among_alternatives {σ : Type} (ml : MLService σ)
    (widx : WordIndex) (states : StatesMap σ) (theme_pairs : List (ℕ × ℕ))
    (difficulty : String) (r : Rng) :
    ((sample_2_choice ml widx states r).1.all
        (fun p => decide (p.correct_sequence ∈ p.alternatives)) = true)
    ∧ ((sample_4_choice ml widx states r).1.all
        (fun p => decide (p.correct_sequence ∈ p.alternatives)) = true)
    ∧ ((sample_2_choice_multi_syllable ml widx states r).1.all
        (fun p => decide (p.correct_sequence ∈ p.alternatives)) = true)
    ∧ ((sample_4_choice_multi_syllable ml widx states r).1.all
        (fun p => decide (p.correct_sequence ∈ p.alternatives)) = true)
    ∧ (sample_problem ml widx states difficulty r).1.correct_sequence
        ∈ (sample_problem ml widx states difficulty r).1.alternatives
    ∧ (sample_fallback widx r).1.correct_sequence
        ∈ (sample_fallback widx r).1.alternatives
    ∧ (sample_2_choice_themed widx theme_pairs r).1.correct_sequence
        ∈ (sample_2_choice_themed widx theme_pairs r).1.alternatives
    ∧ (sample_4_choice_themed widx theme_pairs r).1.correct_sequence
        ∈ (sample_4_choice_themed widx theme_pairs r).1.alternatives
    ∧ (sample_2_choice_2syl_themed ml widx theme_pairs states r).1.correct_sequence
        ∈ (sample_2_choice_2syl_themed ml widx theme_pairs states r).1.alternatives
    ∧ (∀ p : Problem, p.n_choices = p.alternatives.length + 1) := by
  refine ⟨?_, ?_, ?_, ?_, (sample_problem_spec ml widx states difficulty r).1,
    (sample_fallback_spec widx r).1,
    (sample_2_choice_themed_spec widx theme_pairs r).1,
    (sample_4_choice_themed_spec widx theme_pairs r).1,
    (sample_2_choice_2syl_themed_spec ml widx theme_pairs states r).1,
    fun _ => rfl⟩
  · rcases ho : sample_2_choice ml widx states r with ⟨op, r2⟩
    cases op with
    | some p =>
      exact decide_eq_true (sample_2_choice_spec _ _ _ _ _ _ ho).1
    | none => rfl
  · rcases ho : sample_4_choice ml widx states r with ⟨op, r2⟩
    cases op with
    | some p =>
      exact decide_eq_true (sample_4_choice_spec _ _ _ _ _ _ ho).1
    | none => rfl
  · rcases ho : sample_2_choice_multi_syllable ml widx states r with ⟨op, r2⟩
    cases op with
    | some p =>
      exact decide_eq_true (sample_2_choice_multi_syllable_spec _ _ _ _ _ _ ho).1
    | none => rfl
  · rcases ho : sample_4_choice_multi_syllable ml widx states r with ⟨op, r2⟩
    cases op with
    | some p =>
      exact decide_eq_true (sample_4_choice_multi_syllable_spec _ _ _ _ _ _ ho).1
    | none => rfl

/-- The mistake records produced by a learning run: one record per
incorrectly answered drill, in issue order (the driver stores `[]` as the
selected sequence of an incorrect answer). -/
def mistakes_of (ps : List (Problem × DrillMode)) (answers : List Bool) :
    List MistakeRecord :=
  ((ps.zip answers).filter (fun x => !x.2)).map (fun x => ⟨x.1.1, x.1.2, []⟩)

theorem run_lesson_review {σ : Type} (ml : MLService σ) (widx : WordIndex)
    (states : StatesMap σ) :
    ∀ (fuel : ℕ) (st : LessonState) (r : Rng) (answers : List Bool),
      st.phase = LessonPhase.review →
      st.review_index ≤ st.mistakes.length →
      st.mistakes.length - st.review_index ≤ answers.length →
      st.mistakes.length - st.review_index < fuel →
      run_lesson ml widx states fuel st r answers
        = ((st.mistakes.drop st.review_index).map (fun m => (m.problem, m.mode)),
           { st with phase := LessonPhase.complete,
                     review_index := st.mistakes.length })
  | 0, st, r, answers => by
    intro _ _ _ hf
    omega
  | fuel + 1, st, r, answers => by
    intro hphase hle hans hf
    simp only [run_lesson, lesson_get_next_drill, hphase]
    by_cases hdone : st.mistakes.length ≤ st.review_index
    · have hidx : st.review_index = st.mistakes.length := by omega
      simp only [get_review_drill, if_pos hdone]
      rw [List.drop_eq_nil_of_le (by omega)]
      simp only [List.map_nil]
      rw [hidx]
    · simp only [get_review_drill, if_neg hdone]
      have hlt : st.review_index < st.mistakes.length := by omega
      cases answers with
      | nil =>
        simp only [List.length_nil] at hans
        omega
      | cons b rest =>
        simp only
        have hrec : record_answer st
            (st.mistakes.getD st.review_index defaultMistake).problem
            (st.mistakes.getD st.review_index defaultMistake).mode
            (if b then (st.mistakes.getD st.review_index defaultMistake).problem.correct_sequence
             else []) b
            = { st with review_index := st.review_index + 1 } := by
          simp only [record_answer, hphase]
        have hmlen : st.mistakes.length - st.review_index ≤ rest.length + 1 := by
          simpa using hans
        have hrest := run_lesson_review ml widx states fuel
          { st with review_index := st.review_index + 1 } r rest
          hphase (by show st.review_index + 1 ≤ st.mistakes.length; omega)
          (by show st.mistakes.length - (st.review_index + 1) ≤ rest.length; omega)
          (by show st.mistakes.length - (st.review_index + 1) < fuel; omega)
        rw [hrec, hrest]
        simp only
        have hdrop : st.mistakes.drop st.review_index
            = st.mistakes.getD st.review_index defaultMistake
              :: st.mistakes.drop (st.review_index + 1) := by
          rw [List.getD_eq_getElem _ _ hlt]
          exact List.drop_eq_getElem_cons hlt
        rw [hdrop]
        simp

theorem mistakes_of_cons (p : Problem) (m : DrillMode) (ps : List (Problem × DrillMode))
    (b : Bool) (ans : List Bool) :
    mistakes_of ((p, m) :: ps) (b :: ans)
      = (if b then [] else [⟨p, m, []⟩]) ++ mistakes_of ps ans := by
  cases b <;> simp [mistakes_of]

theorem run_lesson_at_end {σ : Type} (ml : MLService σ) (widx : WordIndex)
    (states : StatesMap σ) (fuel : ℕ) (st : LessonState) (r : Rng)
    (ansR : List Bool)
    (hphase : st.phase = LessonPhase.learning)
    (hdone : st.drill_sequence.length ≤ st.current_index)
    (hrev : st.review_index = 0)
    (hans : st.mistakes.length ≤ ansR.length)
    (hf : st.mistakes.length + 1 ≤ fuel) :
    run_lesson ml widx states fuel st r ansR
      = (st.mistakes.map (fun m => (m.problem, m.mode)),
         { st with phase := LessonPhase.complete,
                   review_index := st.mistakes.length }) := by
  cases fuel with
  | zero => omega
  | succ fuel =>
    simp only [run_lesson, lesson_get_next_drill, hphase, get_learning_drill,
      if_pos hdone]
    by_cases hm : st.mistakes.isEmpty = true
    · have hnil : st.mistakes = [] := List.isEmpty_iff.mp hm
      rw [if_pos hm]
      simp only [hnil, List.map_nil, List.length_nil]
      rw [← hrev]
    · rw [if_neg hm]
      have hlen : 0 < st.mistakes.length := by
        cases hl : st.mistakes with
        | nil => rw [hl] at hm; simp at hm
        | cons a l => simp
      simp only [get_review_drill]
      rw [if_neg (by show ¬ (st.mistakes.length ≤ st.review_index); omega)]
      cases ansR with
      | nil => simp only [List.length_nil] at hans; omega
      | cons b rest =>
        simp only
        have hrec : record_answer { st with phase := LessonPhase.review }
            (st.mistakes.getD st.review_index defaultMistake).problem
            (st.mistakes.getD st.review_index defaultMistake).mode
            (if b then (st.mistakes.getD st.review_index defaultMistake).problem.correct_sequence
             else []) b
            = { st with phase := LessonPhase.review,
                        review_index := st.review_index + 1 } := by
          simp only [record_answer]
        rw [hrec]
        have hrest := run_lesson_review ml widx states fuel
          { st with phase := LessonPhase.review,
                    review_index := st.review_index + 1 } r rest
          rfl (by show st.review_index + 1 ≤ st.mistakes.length; omega)
          (by show st.mistakes.length - (st.review_index + 1) ≤ rest.length
              simp only [List.length_cons] at hans; omega)
          (by show st.mistakes.length - (st.review_index + 1) < fuel; omega)
        rw [hrest]
        simp only
        have hdrop : st.mistakes.drop st.review_index
            = st.mistakes.getD st.review_index defaultMistake
              :: st.mistakes.drop (st.review_index + 1) := by
          rw [List.getD_eq_getElem _ _ (by omega)]
          exact List.drop_eq_getElem_cons (by omega)
        rw [hrev] at hdrop ⊢
        rw [List.drop_zero] at hdrop
        rw [hdrop]
        simp

theorem run_lesson_learning {σ : Type} (ml : MLService σ) (widx : WordIndex)
    (states : StatesMap σ) :
    ∀ (ansL : List Bool) (fuel : ℕ) (st : LessonState) (r : Rng) (ansR : List Bool),
      st.phase = LessonPhase.learning →
      st.current_index + ansL.length = st.drill_sequence.length →
      st.review_index = 0 →
      st.mistakes.length + ansL.count false ≤ ansR.length →
      ansL.length + st.mistakes.length + ansL.count false + 1 ≤ fuel →
      ∃ ps : List (Problem × DrillMode),
        run_lesson ml widx states fuel st r (ansL ++ ansR)
          = (ps ++ ((st.mistakes ++ mistakes_of ps ansL).map
                (fun m => (m.problem, m.mode))),
             { st with current_index := st.drill_sequence.length,
                       phase := LessonPhase.complete,
                       mistakes := st.mistakes ++ mistakes_of ps ansL,
                       review_index := (st.mistakes ++ mistakes_of ps ansL).length })
          ∧ ps.length = ansL.length
          ∧ ps.map (fun q => q.2) = st.drill_sequence.drop st.current_index
  | [], fuel, st, r, ansR => by
    intro hphase hcur hrev hans hf
    simp only [List.length_nil, List.count_nil, Nat.add_zero, Nat.zero_add]
      at hcur hans hf
    refine ⟨[], ?_, rfl, ?_⟩
    · simp only [List.nil_append, mistakes_of, List.zip_nil_right, List.filter_nil,
        List.map_nil, List.append_nil]
      have h := run_lesson_at_end ml widx states fuel st r ansR hphase
        (by omega) hrev hans (by omega)
      rw [h, hcur]
    · simp only [List.map_nil]
      rw [List.drop_eq_nil_of_le (by omega)]
  | b :: restL, fuel, st, r, ansR => by
    intro hphase hcur hrev hans hf
    simp only [List.length_cons] at hcur hf
    have hcnt : List.count false (b :: restL)
        = restL.count false + (if b then 0 else 1) := by
      cases b <;> simp [List.count_cons]
    rw [hcnt] at hans hf
    cases fuel with
    | zero => omega
    | succ fuel =>
      have hcurlt : st.current_index < st.drill_sequence.length := by omega
      simp only [run_lesson, lesson_get_next_drill, hphase, get_learning_drill,
        if_neg (not_le.mpr hcurlt), List.cons_append]
      rcases hs : sample_drill_for_mode ml widx
          (st.drill_sequence.getD st.current_index DrillMode.two_choice_1syl)
          st.theme_pairs states r with ⟨p, r1⟩
      simp only
      have hrec : record_answer st p
          (st.drill_sequence.getD st.current_index DrillMode.two_choice_1syl)
          (if b then p.correct_sequence else []) b
          = { st with
              mistakes := st.mistakes ++
                (if b then [] else [⟨p,
                  st.drill_sequence.getD st.current_index
                    DrillMode.two_choice_1syl, []⟩]),
              current_index := st.current_index + 1 } := by
        cases b <;> simp [record_answer, hphase]
      rw [hrec]
      have hone : (if b then ([] : List MistakeRecord)
          else [⟨p, st.drill_sequence.getD st.current_index
            DrillMode.two_choice_1syl, []⟩]).length = if b then 0 else 1 := by
        cases b <;> simp
      obtain ⟨ps, hrun, hlen, hmodes⟩ := run_lesson_learning ml widx states restL fuel
        { st with
          mistakes := st.mistakes ++
            (if b then [] else [⟨p,
              st.drill_sequence.getD st.current_index
                DrillMode.two_choice_1syl, []⟩]),
          current_index := st.current_index + 1 } r1 ansR
        hphase
        (by show st.current_index + 1 + restL.length = st.drill_sequence.length
            omega)
        hrev
        (by show (st.mistakes ++ _).length + restL.count false ≤ ansR.length
            rw [List.length_append, hone]; omega)
        (by show restL.length + (st.mistakes ++ _).length + restL.count false + 1
              ≤ fuel
            rw [List.length_append, hone]; omega)
      refine ⟨(p, st.drill_sequence.getD st.current_index DrillMode.two_choice_1syl)
        :: ps, ?_, by simp [hlen], ?_⟩
      · rw [hrun]
        have hM : (st.mistakes ++
              (if b then [] else [⟨p,
                st.drill_sequence.getD st.current_index
                  DrillMode.two_choice_1syl, []⟩])) ++ mistakes_of ps restL
            = st.mistakes ++ mistakes_of
                ((p, st.drill_sequence.getD st.current_index
                  DrillMode.two_choice_1syl) :: ps) (b :: restL) := by
          rw [mistakes_of_cons]
          exact List.append_assoc _ _ _
        simp only [List.cons_append]
        rw [hM]
      · simp only [List.map_cons, hmodes]
        rw [List.getD_eq_getElem _ _ hcurlt]
        exact (List.drop_eq_getElem_cons hcurlt).symm

/-- C8: every lesson session issues the full planned learning sequence of
exactly `DRILLS_PER_LESSON` (10) drills in order, then replays each recorded
mistake exactly once in recording order, and finishes in the complete phase
with the learning cursor at the sequence length and the review cursor equal
to the number of mistakes (with no mistakes the review segment is empty and
the session completes directly after the learning phase). -/
theorem C8_lesson_state_machine {σ : Type} (ml : MLService σ) (widx : WordIndex)
    (states : StatesMap σ) (lesson_id : ℕ) (theme_id : ℤ)
    (theme_pairs : List (ℕ × ℕ)) (r0 r : Rng) (fuel : ℕ)
    (ansL ansR : List Bool)
    (hL : ansL.length = DRILLS_PER_LESSON)
    (hR : ansL.count false ≤ ansR.length)
    (hf : DRILLS_PER_LESSON + ansL.count false + 1 ≤ fuel) :
    (generate_drill_sequence r0).1.length = DRILLS_PER_LESSON ∧
    ∃ ps : List (Problem × DrillMode),
      run_lesson ml widx states fuel
        ⟨lesson_id, theme_id, theme_pairs, (generate_drill_sequence r0).1, 0,
         LessonPhase.learning, [], 0⟩ r (ansL ++ ansR)
        = (ps ++ ((mistakes_of ps ansL).map (fun m => (m.problem, m.mode))),
           ⟨lesson_id, theme_id, theme_pairs, (generate_drill_sequence r0).1,
            (generate_drill_sequence r0).1.length, LessonPhase.complete,
            mistakes_of ps ansL, (mistakes_of ps ansL).length⟩) ∧
      ps.length = DRILLS_PER_LESSON ∧
      ps.map (fun q => q.2) = (generate_drill_sequence r0).1 := by
  have hlen : (generate_drill_sequence r0).1.length = DRILLS_PER_LESSON := by
    unfold generate_drill_sequence
    rw [rngShuffle_length]
    rfl
  refine ⟨hlen, ?_⟩
  obtain ⟨ps, hrun, hlen2, hmodes⟩ := run_lesson_learning ml widx states ansL fuel
    ⟨lesson_id, theme_id, theme_pairs, (generate_drill_sequence r0).1, 0,
     LessonPhase.learning, [], 0⟩ r ansR
    rfl (by simp only; omega) rfl (by simpa using hR)
    (by simp only [List.length_nil]; omega)
  refine ⟨ps, ?_, by omega, by simpa using hmodes⟩
  exact hrun

theorem C8_witness :
    (List.replicate 10 true).length = DRILLS_PER_LESSON ∧
    List.count false (List.replicate 10 true) ≤ ([] : List Bool).length ∧
    DRILLS_PER_LESSON + List.count false (List.replicate 10 true) + 1 ≤ 12 ∧
    ((generate_drill_sequence []).1.length = DRILLS_PER_LESSON ∧
     ∃ ps : List (Problem × DrillMode),
       run_lesson (luceService 1) [] [] 12
         ⟨0, 0, [], (generate_drill_sequence []).1, 0,
          LessonPhase.learning, [], 0⟩ []
         (List.replicate 10 true ++ ([] : List Bool))
         = (ps ++ ((mistakes_of ps (List.replicate 10 true)).map
              (fun m => (m.problem, m.mode))),
            ⟨0, 0, [], (generate_drill_sequence []).1,
             (generate_drill_sequence []).1.length, LessonPhase.complete,
             mistakes_of ps (List.replicate 10 true),
             (mistakes_of ps (List.replicate 10 true)).length⟩) ∧
       ps.length = DRILLS_PER_LESSON ∧
       ps.map (fun q => q.2) = (generate_drill_sequence []).1) :=
  ⟨by decide, by decide, by decide,
   C8_lesson_state_machine (luceService 1) [] [] 0 0 [] [] [] 12
     (List.replicate 10 true) [] (by decide) (by decide) (by decide)⟩
